import Mathlib

/-!
# Snake game: a shallow embedding of `snake/*.go` and its specification

The Go package `snake` is translated function by function.

* Go `int` is a 64-bit two's-complement integer.  Values are carried as `Int`
  and every arithmetic result is passed through `wrapInt`.
* A Go function may return, panic at run time (index out of range,
  `rand.Intn` with a non-positive bound) or loop for ever.  `Run` records the
  three outcomes; loops that need not terminate take a fuel argument and
  answer `Run.diverged` when it is used up.
* `math/rand` is a global source.  It is an oracle `rnd : Nat → Nat` of raw
  draws together with the number `pos` of draws already consumed;
  `rand.Intn n` reduces the next raw draw modulo `n`, so every oracle gives
  in-range samples and every in-range sample is given by some oracle.
* `go a.addPoints(p)` hands `p` to a goroutine that sends it on the points
  channel; `moveSnake` reports the values handed over in `sent`.
* Pointers to `snake` are values.  The `food` pointer of an arena is an
  `Option`, because `newArena` builds the arena before the first food exists.
-/

namespace SnakeGame

/-! ## Outcomes of a Go call -/

/-- Outcome of a Go call: a returned value, a run-time panic, or no answer
within the fuel that was given. -/
inductive Run (α : Type) where
  | ret (v : α)
  | panicked
  | diverged
  deriving DecidableEq, Repr

/-- Sequencing of Go statements: a panic or a divergence stops the rest. -/
def Run.bind {α β : Type} (r : Run α) (f : α → Run β) : Run β :=
  match r with
  | .ret v => f v
  | .panicked => .panicked
  | .diverged => .diverged

instance : Monad Run where
  pure := Run.ret
  bind := Run.bind

/-- Go `int` on a 64-bit platform: reduce into `[-2^63, 2^63)`. -/
def wrapInt (v : Int) : Int :=
  (v + 9223372036854775808) % 18446744073709551616 - 9223372036854775808

/-- Go `error` values of this package: `nil` is `none`, `errors.New msg` is
`some msg`. -/
abbrev error := Option String

/-! ## Random source and environment -/

/-- The process environment the package reads: the raw draws of `math/rand`
and the value of the `LANG` variable. -/
structure Env where
  rnd : Nat → Nat
  lang : String

/-- The call `rand.Intn(n)`: panics for `n ≤ 0`, otherwise consumes one raw draw
and returns a value in `[0, n)`. -/
def Intn (env : Env) (pos : Nat) (n : Int) : Run (Int × Nat) :=
  if n ≤ 0 then .panicked else .ret ((env.rnd pos : Int) % n, pos + 1)

/-! ## snake.go -/

/-- Modelled from the spec: the declaration of `type coord` is not among the
sources; the spec calls it an integer pair `(x, y)` and the code reads and
writes its fields `x` and `y` as `int`. -/
structure coord where
  x : Int
  y : Int
  deriving DecidableEq, Repr

/-- The type `direction` is `int`. -/
abbrev direction := Int

/-- Constant `RIGHT = 1 + iota`. -/
def RIGHT : direction := 1
/-- Constant `LEFT`. -/
def LEFT : direction := 2
/-- Constant `UP`. -/
def UP : direction := 3
/-- Constant `DOWN`. -/
def DOWN : direction := 4

/-- The struct `snake`: body (oldest segment first), direction, target length. -/
structure snake where
  body : List coord
  direction : direction
  length : Int
  deriving DecidableEq, Repr

/-- Constructor `newSnake(d, b)`. -/
def newSnake (d : direction) (b : List coord) : snake :=
  { length := b.length, body := b, direction := d }

/-- The map literal `opposites` of `changeDirection`, read with Go's lookup:
a missing key gives the zero value. -/
def opposites (d : direction) : direction :=
  if d = RIGHT then LEFT
  else if d = LEFT then RIGHT
  else if d = UP then DOWN
  else if d = DOWN then UP
  else 0

/-- Method `changeDirection(d)`. -/
def snake.changeDirection (s : snake) (d : SnakeGame.direction) : snake :=
  let o := opposites d
  if o ≠ 0 ∧ o ≠ s.direction then { s with direction := d } else s

/-- Method `head()`: `s.body[len(s.body)-1]`; `none` is the index panic on an
empty body. -/
def snake.head (s : snake) : Option coord :=
  s.body.getLast?

/-- Method `die()`: `errors.New("Died")`. -/
def snake.die (_s : snake) : error :=
  some "Died"

/-- Method `isOnPosition(c)`: the range loop over the body. -/
def snake.isOnPosition (s : snake) (c : coord) : Bool :=
  s.body.any (fun b => b.x == c.x && b.y == c.y)

/-- The `switch s.direction` of `move`, applied to the copy `c` of the head. -/
def advance (d : direction) (c : coord) : coord :=
  if d = RIGHT then { c with x := wrapInt (c.x + 1) }
  else if d = LEFT then { c with x := wrapInt (c.x - 1) }
  else if d = UP then { c with y := wrapInt (c.y + 1) }
  else if d = DOWN then { c with y := wrapInt (c.y - 1) }
  else c

/-- Method `move()`: returns the error together with the snake as the call
leaves it. -/
def snake.move (s : snake) : Run (error × snake) :=
  match s.head with
  | none => .panicked
  | some h =>
    let c := advance s.direction { x := h.x, y := h.y }
    if s.isOnPosition c then
      .ret (s.die, s)
    else if s.length > s.body.length then
      .ret (none, { s with body := s.body ++ [c] })
    else
      .ret (none, { s with body := s.body.drop 1 ++ [c] })

/-! ## food.go -/

/-- The struct `food`; a rune is its code point. -/
structure food where
  emoji : Nat
  points : Int
  x : Int
  y : Int
  deriving DecidableEq, Repr

/-- Function `hasUnicodeSupport()`: `strings.Contains(LANG, "UTF-8")`. -/
def hasUnicodeSupport (env : Env) : Bool :=
  decide ("UTF-8".toList <:+: env.lang.toList)

/-- The slice literal `f` of `randomFoodEmoji`. -/
def foodEmojis : List Nat :=
  [127826, 127821, 127825, 127815, 127823, 127820, 127851, 127853,
   127829, 127849, 127831, 127830, 127852, 127844, 127850]

/-- Function `randomFoodEmoji()`: `f[rand.Intn(len(f))]`. -/
def randomFoodEmoji (env : Env) (pos : Nat) : Run (Nat × Nat) := do
  let (i, pos) ← Intn env pos foodEmojis.length
  match foodEmojis.get? i.toNat with
  | some e => pure (e, pos)
  | none => .panicked

/-- Function `getFoodEmoji()`; the fallback rune is `@`. -/
def getFoodEmoji (env : Env) (pos : Nat) : Run (Nat × Nat) :=
  if hasUnicodeSupport env then randomFoodEmoji env pos else pure (64, pos)

/-- Constructor `newFood(x, y)`. -/
def newFood (env : Env) (pos : Nat) (x y : Int) : Run (food × Nat) := do
  let (e, pos) ← getFoodEmoji env pos
  pure ({ points := 10, emoji := e, x := x, y := y }, pos)

/-! ## arena.go -/

/-- The struct `arena`.  The field `hasFood` always holds the package function
`hasFood` (the only constructor, `newArena`, stores it) and is called directly;
the channel `pointsChan` is represented by the values sent on it. -/
structure arena where
  food : Option food
  snake : snake
  height : Int
  width : Int
  deriving DecidableEq, Repr

/-- Method `isOccupied(c)`. -/
def arena.isOccupied (a : arena) (c : coord) : Bool :=
  a.snake.isOnPosition c

/-- The `for` loop of `placeFood`: draw `x`, draw `y`, leave when the cell is
not occupied.  One unit of fuel pays for one iteration. -/
def arena.placeFoodLoop (env : Env) (a : arena) : Nat → Nat → Run (coord × Nat)
  | 0, _ => .diverged
  | fuel + 1, pos => do
    let (x, pos) ← Intn env pos a.width
    let (y, pos) ← Intn env pos a.height
    if !a.isOccupied { x := x, y := y } then
      pure ({ x := x, y := y }, pos)
    else
      arena.placeFoodLoop env a fuel pos

/-- Method `placeFood()`. -/
def arena.placeFood (env : Env) (fuel : Nat) (a : arena) (pos : Nat) :
    Run (arena × Nat) := do
  let (c, pos) ← a.placeFoodLoop env fuel pos
  let (f, pos) ← newFood env pos c.x c.y
  pure ({ a with food := some f }, pos)

/-- Constructor `newArena(s, p, h, w)`.  Seeding the source leaves the oracle
arbitrary. -/
def newArena (env : Env) (fuel : Nat) (s : snake) (h w : Int) (pos : Nat) :
    Run (arena × Nat) :=
  let a : arena := { snake := s, height := h, width := w, food := none }
  a.placeFood env fuel pos

/-- Function `hasFood(a, c)`; `none` is the nil dereference of `a.food`. -/
def hasFood (a : arena) (c : coord) : Option Bool :=
  match a.food with
  | none => none
  | some f => some (c.x == f.x && c.y == f.y)

/-- Method `snakeLeftArena()`; `none` is the index panic of `head`. -/
def arena.snakeLeftArena (a : arena) : Option Bool :=
  match a.snake.head with
  | none => none
  | some h => some (h.x > a.width || h.y > a.height || h.x < 0 || h.y < 0)

/-- What a call of `moveSnake` leaves behind: the returned error, the arena,
the score deltas handed to `addPoints` goroutines, and the position of the
random source. -/
structure MoveSnakeResult where
  err : error
  arena : arena
  sent : List Int
  pos : Nat
  deriving DecidableEq, Repr

/-- Lift of a possibly panicking read into `Run`. -/
def Run.ofOption {α : Type} : Option α → Run α
  | some v => .ret v
  | none => .panicked

/-- Method `moveSnake()`. -/
def arena.moveSnake (env : Env) (fuel : Nat) (a : arena) (pos : Nat) :
    Run MoveSnakeResult := do
  let (err, s) ← a.snake.move
  let a := { a with snake := s }
  if err ≠ none then
    pure { err := err, arena := a, sent := [], pos := pos }
  else
    let left ← Run.ofOption a.snakeLeftArena
    if left then
      pure { err := a.snake.die, arena := a, sent := [], pos := pos }
    else
      let h ← Run.ofOption a.snake.head
      let eaten ← Run.ofOption (hasFood a h)
      if eaten then
        let f ← Run.ofOption a.food
        let sent := [f.points]
        let a := { a with snake := { a.snake with length := wrapInt (a.snake.length + 1) } }
        let (a, pos) ← a.placeFood env fuel pos
        pure { err := none, arena := a, sent := sent, pos := pos }
      else
        pure { err := none, arena := a, sent := [], pos := pos }

/-! ## game.go -/

/-- The struct `Game`. -/
structure Game where
  arena : arena
  score : Int
  isOver : Bool
  deriving DecidableEq, Repr

/-- Function `initialSnake()`. -/
def initialSnake : snake :=
  newSnake RIGHT [⟨1, 1⟩, ⟨1, 2⟩, ⟨1, 3⟩, ⟨1, 4⟩]

/-- Function `initialScore()`. -/
def initialScore : Int := 0

/-- Function `initialArena()`. -/
def initialArena (env : Env) (fuel : Nat) (pos : Nat) : Run (arena × Nat) :=
  newArena env fuel initialSnake 20 50 pos

/-- Method `end()`. -/
def Game.end (g : Game) : Game :=
  { g with isOver := true }

/-- The constant `time.Millisecond`, in nanoseconds. -/
def Millisecond : Int := 1000000

/-- Method `moveInterval()`: a `time.Duration`, that is an `int64` count of
nanoseconds.  Go's `/` truncates toward zero. -/
def Game.moveInterval (g : Game) : Int :=
  let ms := wrapInt (100 - Int.tdiv g.score 10)
  wrapInt (ms * Millisecond)

/-- Method `retry()`. -/
def Game.retry (env : Env) (fuel : Nat) (g : Game) (pos : Nat) : Run (Game × Nat) := do
  let (a, pos) ← initialArena env fuel pos
  let g := { g with arena := a }
  let g := { g with score := initialScore }
  let g := { g with isOver := false }
  pure (g, pos)

/-- Method `addPoints(p)` of `Game`. -/
def Game.addPoints (g : Game) (p : Int) : Game :=
  { g with score := wrapInt (g.score + p) }

/-- Function `NewGame()`. -/
def NewGame (env : Env) (fuel : Nat) (pos : Nat) : Run (Game × Nat) := do
  let (a, pos) ← initialArena env fuel pos
  pure ({ arena := a, score := initialScore, isOver := false }, pos)

/-! ## keyboard.go -/

/-- Constant `MOVE = 1 + iota` of type `keyboardEventType` (an `int`). -/
def MOVE : Int := 1
/-- Constant `RETRY`. -/
def RETRY : Int := 2
/-- Constant `END`. -/
def END : Int := 3

/-- Modelled from the spec: the terminal library that declares the type
`termbox.Key` (a 16-bit code) and the constants `KeyArrowLeft`, `KeyArrowDown`,
`KeyArrowRight` and `KeyArrowUp` is not among the sources; the spec only says
that the four arrow keys give the four directions.  The four codes are taken
as given; they are pairwise distinct, as the `switch` of `keyToDirection`
with the four constant cases compiles. -/
structure ArrowKeys where
  KeyArrowLeft : Nat
  KeyArrowDown : Nat
  KeyArrowRight : Nat
  KeyArrowUp : Nat
  distinct : [KeyArrowLeft, KeyArrowDown, KeyArrowRight, KeyArrowUp].Nodup

/-- The struct `keyboardEvent`. -/
structure keyboardEvent where
  eventType : Int
  key : Nat
  deriving DecidableEq, Repr

/-- Function `keyToDirection(k)`. -/
def keyToDirection (keys : ArrowKeys) (k : Nat) : direction :=
  if k = keys.KeyArrowLeft then LEFT
  else if k = keys.KeyArrowDown then DOWN
  else if k = keys.KeyArrowRight then RIGHT
  else if k = keys.KeyArrowUp then UP
  else 0

/-! ## game.go: the main loop of `Start`

One iteration of the `for`/`select` loop takes one of three branches.  The
calls of `render` and `time.Sleep` belong to the presentation and change no
game state; they are left out. -/

/-- Branch `case p := <-pointsChan` of the loop. -/
def Game.onPoints (g : Game) (p : Int) : Game :=
  g.addPoints p

/-- Branch `case e := <-keyboardEventsChan` of the loop: the `switch` on the
event type.  The answer `none` is `break mainloop`. -/
def Game.onKeyboardEvent (keys : ArrowKeys) (env : Env) (fuel : Nat) (g : Game)
    (e : keyboardEvent) (pos : Nat) : Run (Option (Game × Nat)) :=
  if e.eventType = MOVE then
    let d := keyToDirection keys e.key
    pure (some ({ g with arena := { g.arena with snake := g.arena.snake.changeDirection d } },
      pos))
  else if e.eventType = RETRY then do
    let (g, pos) ← g.retry env fuel pos
    pure (some (g, pos))
  else if e.eventType = END then
    pure none
  else
    pure (some (g, pos))

/-- Branch `default` of the loop, one tick: returns the game, the score deltas
handed to `addPoints` goroutines and the position of the random source. -/
def Game.tick (env : Env) (fuel : Nat) (g : Game) (pos : Nat) :
    Run (Game × List Int × Nat) :=
  if !g.isOver then do
    let r ← g.arena.moveSnake env fuel pos
    let g := { g with arena := r.arena }
    let g := if r.err ≠ none then g.end else g
    pure (g, r.sent, r.pos)
  else
    pure (g, [], pos)

/-! ## Sampling and reachability -/

/-- The cell drawn in iteration `k` of the loop of `placeFood` when the loop
starts at position `pos` of the random source. -/
def sampleCell (env : Env) (a : arena) (pos k : Nat) : coord :=
  { x := (env.rnd (pos + 2 * k) : Int) % a.width,
    y := (env.rnd (pos + 2 * k + 1) : Int) % a.height }

/-- Arena states reachable from `newArena` by `changeDirection` and `moveSnake`
calls that return (with or without the died error); every call may see any
random source. -/
inductive ArenaReach : arena → Prop where
  | init (env : Env) (fuel : Nat) (s : snake) (h w : Int) (pos : Nat) (a : arena) (pos' : Nat) :
      newArena env fuel s h w pos = .ret (a, pos') → ArenaReach a
  | turn (a : arena) (d : direction) :
      ArenaReach a → ArenaReach { a with snake := a.snake.changeDirection d }
  | tick (env : Env) (fuel : Nat) (a : arena) (pos : Nat) (r : MoveSnakeResult) :
      ArenaReach a → a.moveSnake env fuel pos = .ret r → ArenaReach r.arena

/-- The food invariant: food exists, off the snake and inside the grid. -/
def FoodOk (a : arena) : Prop :=
  ∃ f, a.food = some f ∧ a.isOccupied ⟨f.x, f.y⟩ = false ∧
    0 ≤ f.x ∧ f.x < a.width ∧ 0 ≤ f.y ∧ f.y < a.height

/-- Iterated ticks: `n` calls of `moveSnake` in a row, each starting where the
previous one left the arena and the random source. -/
def runTicks (env : Env) (fuel : Nat) : Nat → arena → Nat → Run (arena × Nat)
  | 0, a, pos => .ret (a, pos)
  | n + 1, a, pos =>
    match a.moveSnake env fuel pos with
    | .ret r => runTicks env fuel n r.arena r.pos
    | .panicked => .panicked
    | .diverged => .diverged

/-- The neck of a snake: the second-to-last body element, the segment right
behind the head. -/
def snake.neck (s : snake) : Option coord :=
  s.body.dropLast.getLast?

/-- Largest value of a Go `int`. -/
def maxInt : Int := 9223372036854775807

/-- Snake states reachable from `newSnake` by `move` calls that return (with or
without the died error), direction changes and increments of the target
length (`a.snake.length++` in `moveSnake`) that stay below the largest `int`. -/
inductive SnakeReach : snake → Prop where
  | init (d : direction) (b : List coord) : SnakeReach (newSnake d b)
  | move (s : snake) (e : error) (s' : snake) :
      SnakeReach s → s.move = .ret (e, s') → SnakeReach s'
  | turn (s : snake) (d : direction) : SnakeReach s → SnakeReach (s.changeDirection d)
  | grow (s : snake) : SnakeReach s → s.length < maxInt →
      SnakeReach { s with length := wrapInt (s.length + 1) }

/-- State of the running main loop: the game, and the score deltas that
`addPoints` goroutines hold and the loop has not received yet (the goroutines
may deliver in any order). -/
structure LoopState where
  game : Game
  pending : List Int
  deriving DecidableEq, Repr

/-- What one iteration of the main loop consumes: nothing (a tick), a score
delta from the points channel, or a keyboard event. -/
inductive LoopEvent where
  | tick
  | points (p : Int)
  | keyboard (e : keyboardEvent)
  deriving DecidableEq, Repr

/-- One iteration of the main loop that returns to the head of the loop.  Every
call may see any random source. -/
inductive LoopStep (keys : ArrowKeys) : LoopState → LoopEvent → LoopState → Prop where
  | tick (env : Env) (fuel pos : Nat) (g : Game) (pend : List Int) (g' : Game)
      (sent : List Int) (pos' : Nat) :
      g.tick env fuel pos = .ret (g', sent, pos') →
      LoopStep keys ⟨g, pend⟩ .tick ⟨g', pend ++ sent⟩
  | points (g : Game) (pend : List Int) (p : Int) :
      p ∈ pend → LoopStep keys ⟨g, pend⟩ (.points p) ⟨g.onPoints p, pend.erase p⟩
  | keyboard (env : Env) (fuel pos : Nat) (g : Game) (pend : List Int) (e : keyboardEvent)
      (g' : Game) (pos' : Nat) :
      g.onKeyboardEvent keys env fuel e pos = .ret (some (g', pos')) →
      LoopStep keys ⟨g, pend⟩ (.keyboard e) ⟨g', pend⟩

/-- Loop states reachable from `NewGame` in `n` iterations of the main loop. -/
inductive LoopReach (keys : ArrowKeys) : Nat → LoopState → Prop where
  | init (env : Env) (fuel pos : Nat) (g : Game) (pos' : Nat) :
      NewGame env fuel pos = .ret (g, pos') → LoopReach keys 0 ⟨g, []⟩
  | step (n : Nat) (st : LoopState) (ev : LoopEvent) (st' : LoopState) :
      LoopReach keys n st → LoopStep keys st ev st' → LoopReach keys (n + 1) st'

/-- A retry event: a keyboard event of type `RETRY`. -/
def LoopEvent.isRetry : LoopEvent → Bool
  | .keyboard e => decide (e.eventType = RETRY)
  | _ => false

/-- Runs of the main loop without a retry event. -/
inductive NoRetryRun (keys : ArrowKeys) : LoopState → LoopState → Prop where
  | refl (st : LoopState) : NoRetryRun keys st st
  | step (st st' st'' : LoopState) (ev : LoopEvent) :
      NoRetryRun keys st st' → LoopStep keys st' ev st'' → ev.isRetry = false →
      NoRetryRun keys st st''

/-- Snake states reachable from a given snake by `move` calls that return (with
or without the died error), direction changes and increments of the target
length. -/
inductive SnakeReachFrom (s0 : snake) : snake → Prop where
  | init : SnakeReachFrom s0 s0
  | move (s : snake) (e : error) (s' : snake) :
      SnakeReachFrom s0 s → s.move = .ret (e, s') → SnakeReachFrom s0 s'
  | turn (s : snake) (d : direction) :
      SnakeReachFrom s0 s → SnakeReachFrom s0 (s.changeDirection d)
  | grow (s : snake) : SnakeReachFrom s0 s →
      SnakeReachFrom s0 { s with length := wrapInt (s.length + 1) }

/-- One choice of the four key codes, as termbox-go numbers them: `0xFFFF - 20`,
`0xFFFF - 19`, `0xFFFF - 21` and `0xFFFF - 18` for the left, down, right and
up arrow. -/
def termboxKeys : ArrowKeys :=
  { KeyArrowLeft := 65515, KeyArrowDown := 65516, KeyArrowRight := 65514,
    KeyArrowUp := 65517, distinct := by decide }

/-- A run of the main loop on a given list of events, every call drawing from
the same random source in turn; `none` when an iteration does not return to
the head of the loop or a delta is not pending. -/
def loopRun (keys : ArrowKeys) (env : Env) (fuel : Nat) :
    List LoopEvent → LoopState → Nat → Option (LoopState × Nat)
  | [], st, pos => some (st, pos)
  | .tick :: evs, st, pos =>
    match st.game.tick env fuel pos with
    | .ret (g', sent, pos') => loopRun keys env fuel evs ⟨g', st.pending ++ sent⟩ pos'
    | _ => none
  | .points p :: evs, st, pos =>
    if p ∈ st.pending then
      loopRun keys env fuel evs ⟨st.game.onPoints p, st.pending.erase p⟩ pos
    else none
  | .keyboard e :: evs, st, pos =>
    match st.game.onKeyboardEvent keys env fuel e pos with
    | .ret (some (g', pos')) => loopRun keys env fuel evs ⟨g', st.pending⟩ pos'
    | _ => none

/-! ## Concrete arenas used below -/

/-- An environment whose random source always draws 7 and whose `LANG` has no
UTF-8. -/
def sevenEnv : Env := { rnd := fun _ => 7, lang := "C" }

/-- An environment whose random source always draws 0. -/
def zeroEnv : Env := { rnd := fun _ => 0, lang := "C" }

/-- The 50 x 20 game arena after 48 ticks straight to the right: head at
`(49,4)`, food at `(7,7)`. -/
def rightEdgeArena : arena :=
  ⟨some ⟨64, 10, 7, 7⟩, ⟨[⟨46, 4⟩, ⟨47, 4⟩, ⟨48, 4⟩, ⟨49, 4⟩], RIGHT, 4⟩, 20, 50⟩

/-- The 50 x 20 game arena after a turn UP and 15 ticks: head at `(1,19)`,
food at `(7,7)`. -/
def topEdgeArena : arena :=
  ⟨some ⟨64, 10, 7, 7⟩, ⟨[⟨1, 16⟩, ⟨1, 17⟩, ⟨1, 18⟩, ⟨1, 19⟩], UP, 4⟩, 20, 50⟩

/-- A 1 x 1 arena whose one-segment snake stands at `(-1,0)` heading RIGHT,
with the food on the only cell `(0,0)`. -/
def oneCellArena : arena :=
  ⟨some ⟨64, 10, 0, 0⟩, ⟨[⟨-1, 0⟩], RIGHT, 1⟩, 1, 1⟩

/-- Scenario 2 of the spec: head at `(2,1)` heading RIGHT, food at `(3,1)`,
in a 50 x 20 arena. -/
def scenario2Arena : arena :=
  ⟨some ⟨64, 10, 3, 1⟩, ⟨[⟨0, 1⟩, ⟨1, 1⟩, ⟨2, 1⟩], RIGHT, 3⟩, 20, 50⟩

/-- A game of the 50 x 20 arena with the given score and over flag. -/
def gameWith (score : Int) (isOver : Bool) : Game :=
  { arena := ⟨some ⟨64, 10, 7, 7⟩, initialSnake, 20, 50⟩, score := score, isOver := isOver }

/-- An environment whose random source draws 7, 8, 9, ... and whose `LANG` has
no UTF-8. -/
def countEnv : Env := { rnd := fun i => 7 + i, lang := "C" }

/-- Events of a short play: six ticks to the right, the up arrow, four ticks
up onto the food, and the receipt of the score delta. -/
def shortPlay : List LoopEvent :=
  List.replicate 6 .tick ++ [.keyboard ⟨MOVE, 65517⟩] ++ List.replicate 4 .tick ++ [.points 10]

/-- The new game of `countEnv`: food at `(7,8)`. -/
def countGame : Game :=
  { arena := ⟨some ⟨64, 10, 7, 8⟩, initialSnake, 20, 50⟩, score := 0, isOver := false }

/-- The loop state after `shortPlay` from `countGame`: the food at `(7,8)` was
eaten, the new food lies at `(9,10)`, and the score is 10. -/
def shortPlayEnd : LoopState :=
  { game := { arena := ⟨some ⟨64, 10, 9, 10⟩,
                ⟨[⟨7, 5⟩, ⟨7, 6⟩, ⟨7, 7⟩, ⟨7, 8⟩], UP, 5⟩, 20, 50⟩,
              score := 10, isOver := false },
    pending := [] }

/-- An environment whose random source draws 1, 1, 1, 2, 5, 5 and then 0 for
ever: the cells `(1,1)`, `(1,2)`, `(5,5)`, `(0,0)`, ... -/
def skipEnv : Env := { rnd := fun i => [1, 1, 1, 2, 5, 5].getD i 0, lang := "C" }

/-! ## Basic facts about the snake -/

theorem isOnPosition_iff_mem (s : snake) (c : coord) :
    s.isOnPosition c = true ↔ c ∈ s.body := by
  unfold snake.isOnPosition
  rw [List.any_eq_true]
  constructor
  · rintro ⟨b, hb, hbc⟩
    simp only [Bool.and_eq_true, beq_iff_eq] at hbc
    have hbe : b = c := by
      cases b; cases c; simp only [coord.mk.injEq]; exact hbc
    exact hbe ▸ hb
  · intro hc
    exact ⟨c, hc, by simp⟩

theorem isOnPosition_eq_false_iff (s : snake) (c : coord) :
    s.isOnPosition c = false ↔ c ∉ s.body := by
  rw [← isOnPosition_iff_mem, Bool.not_eq_true]

theorem head_of_ne_nil (s : snake) (hne : s.body ≠ []) :
    s.head = some (s.body.getLast hne) := by
  unfold snake.head
  exact List.getLast?_eq_getLast s.body hne

theorem head_eq_some_iff (s : snake) (h : coord) :
    s.head = some h ↔ ∃ l, s.body = l ++ [h] := by
  unfold snake.head
  exact List.getLast?_eq_some_iff

/-- The three ways `move` can end on a snake with head `h`. -/
theorem move_eq_of_head (s : snake) (h : coord) (hh : s.head = some h) :
    s.move =
      if advance s.direction h ∈ s.body then .ret (s.die, s)
      else if s.length > s.body.length then
        .ret (none, { s with body := s.body ++ [advance s.direction h] })
      else .ret (none, { s with body := s.body.drop 1 ++ [advance s.direction h] }) := by
  unfold snake.move
  rw [hh]
  by_cases hc : advance s.direction h ∈ s.body
  · have hon := (isOnPosition_iff_mem s _).mpr hc
    simp only [hon, hc, if_true]
  · have hon := (isOnPosition_eq_false_iff s _).mpr hc
    simp [hon, hc]

theorem Run.ret_bind {α β : Type} (v : α) (f : α → Run β) : (Run.ret v >>= f) = f v := rfl

theorem Run.pure_eq_ret {α : Type} (v : α) : (pure v : Run α) = Run.ret v := rfl

theorem Run.bind_eq_ret {α β : Type} {r : Run α} {f : α → Run β} {w : β}
    (h : (r >>= f) = Run.ret w) : ∃ v, r = Run.ret v ∧ f v = Run.ret w := by
  cases r with
  | ret v => exact ⟨v, rfl, h⟩
  | panicked => cases h
  | diverged => cases h

theorem Intn_ret (env : Env) (pos : Nat) (n v : Int) (pos' : Nat)
    (h : Intn env pos n = .ret (v, pos')) :
    0 < n ∧ v = (env.rnd pos : Int) % n ∧ pos' = pos + 1 ∧ 0 ≤ v ∧ v < n := by
  unfold Intn at h
  split at h
  · cases h
  · simp only [Run.ret.injEq, Prod.mk.injEq] at h
    obtain ⟨hv, hp⟩ := h
    have hn : 0 < n := by omega
    subst hv
    exact ⟨hn, rfl, hp.symm, Int.emod_nonneg _ (by omega), Int.emod_lt_of_pos _ hn⟩

theorem Intn_of_pos (env : Env) (pos : Nat) (n : Int) (hn : 0 < n) :
    Intn env pos n = .ret ((env.rnd pos : Int) % n, pos + 1) := by
  unfold Intn
  rw [if_neg (by omega)]

/-- The constructor `newFood` always returns: a food worth 10 points at the
given cell. -/
theorem newFood_ret (env : Env) (pos : Nat) (x y : Int) :
    ∃ e pos', newFood env pos x y = .ret (⟨e, 10, x, y⟩, pos') := by
  unfold newFood getFoodEmoji
  by_cases hu : hasUnicodeSupport env = true
  · rw [if_pos hu]
    unfold randomFoodEmoji
    rw [Intn_of_pos env pos _ (by decide), Run.ret_bind]
    have hlt : ((env.rnd pos : Int) % (foodEmojis.length : Int)).toNat < foodEmojis.length := by
      have h1 := Int.emod_lt_of_pos (env.rnd pos : Int) (show (0 : Int) < (foodEmojis.length : Int) by decide)
      have h2 := Int.emod_nonneg (env.rnd pos : Int) (show ((foodEmojis.length : Int)) ≠ 0 by decide)
      omega
    simp only [List.get?_eq_get hlt, Run.pure_eq_ret, Run.ret_bind]
    exact ⟨_, _, rfl⟩
  · rw [if_neg hu]
    exact ⟨_, _, rfl⟩

theorem placeFoodLoop_succ (env : Env) (a : arena) (fuel pos : Nat)
    (hw : 0 < a.width) (hh : 0 < a.height) :
    a.placeFoodLoop env (fuel + 1) pos =
      if a.isOccupied (sampleCell env a pos 0) = false then
        .ret (sampleCell env a pos 0, pos + 2)
      else a.placeFoodLoop env fuel (pos + 2) := by
  rw [arena.placeFoodLoop]
  rw [Intn_of_pos env pos _ hw, Run.ret_bind]
  simp only []
  rw [Intn_of_pos env (pos + 1) _ hh, Run.ret_bind]
  simp only [sampleCell, Nat.mul_zero, Nat.add_zero]
  cases a.isOccupied _ <;> simp [Run.pure_eq_ret]

/-- Soundness of the loop: a returned cell is free and inside the grid. -/
theorem placeFoodLoop_ret (env : Env) (a : arena) :
    ∀ (fuel pos : Nat) (c : coord) (pos' : Nat),
      a.placeFoodLoop env fuel pos = .ret (c, pos') →
      a.isOccupied c = false ∧ 0 ≤ c.x ∧ c.x < a.width ∧ 0 ≤ c.y ∧ c.y < a.height := by
  intro fuel
  induction fuel with
  | zero => intro pos c pos' h; simp [arena.placeFoodLoop] at h
  | succ n ih =>
    intro pos c pos' h
    rw [arena.placeFoodLoop] at h
    obtain ⟨⟨x, p1⟩, hx, h⟩ := Run.bind_eq_ret h
    simp only [] at h
    obtain ⟨⟨y, p2⟩, hy, h⟩ := Run.bind_eq_ret h
    simp only [] at h
    obtain ⟨_, _, _, hx0, hx1⟩ := Intn_ret env pos _ x p1 hx
    obtain ⟨_, _, _, hy0, hy1⟩ := Intn_ret env p1 _ y p2 hy
    by_cases hocc : a.isOccupied { x := x, y := y } = true
    · simp only [hocc, Bool.not_true, Bool.false_eq_true, if_false] at h
      exact ih p2 c pos' h
    · simp only [Bool.not_eq_true] at hocc
      simp only [hocc, Bool.not_false, if_true, Run.pure_eq_ret, Run.ret.injEq,
        Prod.mk.injEq] at h
      obtain ⟨hc, _⟩ := h
      subst hc
      exact ⟨hocc, hx0, hx1, hy0, hy1⟩

theorem sampleCell_shift (env : Env) (a : arena) (pos k : Nat) :
    sampleCell env a (pos + 2) k = sampleCell env a pos (k + 1) := by
  simp only [sampleCell]
  have e1 : pos + 2 + 2 * k = pos + 2 * (k + 1) := by omega
  rw [e1]

/-- Termination of the loop: if the cells drawn in iterations `0 .. k-1` are
occupied and the cell of iteration `k` is free, any fuel above `k` returns
that cell after `2 * (k + 1)` draws. -/
theorem placeFoodLoop_first_free (env : Env) (a : arena)
    (hw : 0 < a.width) (hh : 0 < a.height) :
    ∀ (k pos fuel : Nat), k < fuel →
      (∀ j, j < k → a.isOccupied (sampleCell env a pos j) = true) →
      a.isOccupied (sampleCell env a pos k) = false →
      a.placeFoodLoop env fuel pos = .ret (sampleCell env a pos k, pos + 2 * (k + 1)) := by
  intro k
  induction k with
  | zero =>
    intro pos fuel hf _ hfree
    obtain ⟨n, rfl⟩ : ∃ n, fuel = n + 1 := ⟨fuel - 1, by omega⟩
    rw [placeFoodLoop_succ env a n pos hw hh, if_pos hfree]
  | succ k ih =>
    intro pos fuel hf hocc hfree
    obtain ⟨n, rfl⟩ : ∃ n, fuel = n + 1 := ⟨fuel - 1, by omega⟩
    rw [placeFoodLoop_succ env a n pos hw hh]
    have h0 := hocc 0 (by omega)
    rw [if_neg (by simp [h0])]
    have := ih (pos + 2) n (by omega)
      (fun j hj => by rw [sampleCell_shift]; exact hocc (j + 1) (by omega))
      (by rw [sampleCell_shift]; exact hfree)
    rw [this, sampleCell_shift]
    have e : pos + 2 + 2 * (k + 1) = pos + 2 * (k + 1 + 1) := by omega
    rw [e]

/-- Soundness of `placeFood`: when it returns, only the food changed, and the
new food is worth 10 points on a free cell inside the grid. -/
theorem placeFood_ret (env : Env) (fuel : Nat) (a : arena) (pos : Nat) (a' : arena)
    (pos' : Nat) (h : a.placeFood env fuel pos = .ret (a', pos')) :
    ∃ f, a' = { a with food := some f } ∧ f.points = 10 ∧
      a.isOccupied ⟨f.x, f.y⟩ = false ∧
      0 ≤ f.x ∧ f.x < a.width ∧ 0 ≤ f.y ∧ f.y < a.height := by
  unfold arena.placeFood at h
  obtain ⟨⟨c, p1⟩, hc, h⟩ := Run.bind_eq_ret h
  simp only [] at h
  obtain ⟨⟨f, p2⟩, hf, h⟩ := Run.bind_eq_ret h
  simp only [Run.pure_eq_ret, Run.ret.injEq, Prod.mk.injEq] at h
  obtain ⟨e, q, hnf⟩ := newFood_ret env p1 c.x c.y
  rw [hnf] at hf
  simp only [Run.ret.injEq, Prod.mk.injEq] at hf
  obtain ⟨hfree, hx0, hx1, hy0, hy1⟩ := placeFoodLoop_ret env a fuel pos c p1 hc
  refine ⟨f, h.1.symm, ?_, ?_, ?_, ?_, ?_, ?_⟩ <;> rw [← hf.1]
  · exact hfree
  · exact hx0
  · exact hx1
  · exact hy0
  · exact hy1

/-- Termination of `placeFood`: with positive dimensions and a free cell drawn
in iteration `k` (none before), any fuel above `k` returns, placing the food
on that cell. -/
theorem placeFood_first_free (env : Env) (a : arena)
    (hw : 0 < a.width) (hh : 0 < a.height) (k pos fuel : Nat) (hk : k < fuel)
    (hocc : ∀ j, j < k → a.isOccupied (sampleCell env a pos j) = true)
    (hfree : a.isOccupied (sampleCell env a pos k) = false) :
    ∃ e pos', a.placeFood env fuel pos =
      .ret ({ a with food := some ⟨e, 10, (sampleCell env a pos k).x,
                (sampleCell env a pos k).y⟩ }, pos') := by
  unfold arena.placeFood
  rw [placeFoodLoop_first_free env a hw hh k pos fuel hk hocc hfree, Run.ret_bind]
  obtain ⟨e, q, hnf⟩ := newFood_ret env (pos + 2 * (k + 1)) (sampleCell env a pos k).x
    (sampleCell env a pos k).y
  simp only [hnf, Run.ret_bind, Run.pure_eq_ret]
  exact ⟨e, q, rfl⟩

/-- A successful `move`: the candidate cell was free and became the head; the
old body is kept whole while the snake grows and loses its oldest segment
otherwise. -/
theorem move_ret_none (s s' : snake) (hm : s.move = .ret (none, s')) :
    ∃ h, s.head = some h ∧ advance s.direction h ∉ s.body ∧
      s'.head = some (advance s.direction h) ∧
      s'.direction = s.direction ∧ s'.length = s.length ∧
      ((s.length > s.body.length ∧ s'.body = s.body ++ [advance s.direction h]) ∨
       (¬ s.length > s.body.length ∧
          s'.body = s.body.drop 1 ++ [advance s.direction h])) := by
  cases hh : s.head with
  | none => simp [snake.move, hh] at hm
  | some h =>
    rw [move_eq_of_head s h hh] at hm
    refine ⟨h, rfl, ?_⟩
    by_cases hc : advance s.direction h ∈ s.body
    · simp [hc, snake.die] at hm
    · simp only [hc, if_false] at hm
      refine ⟨hc, ?_⟩
      by_cases hl : s.length > s.body.length
      · simp only [hl, if_true, Run.ret.injEq, Prod.mk.injEq, true_and] at hm
        subst hm
        exact ⟨by simp [snake.head], rfl, rfl, Or.inl ⟨hl, rfl⟩⟩
      · simp only [hl, if_false, Run.ret.injEq, Prod.mk.injEq, true_and] at hm
        subst hm
        exact ⟨by simp [snake.head], rfl, rfl, Or.inr ⟨hl, rfl⟩⟩

/-- A failed `move` is the died error on an untouched snake. -/
theorem move_ret_some (s s' : snake) (e : String) (hm : s.move = .ret (some e, s')) :
    e = "Died" ∧ s' = s := by
  cases hh : s.head with
  | none => simp [snake.move, hh] at hm
  | some h =>
    rw [move_eq_of_head s h hh] at hm
    by_cases hc : advance s.direction h ∈ s.body
    · simp only [hc, if_true, snake.die, Run.ret.injEq, Prod.mk.injEq, Option.some.injEq] at hm
      exact ⟨hm.1.symm, hm.2.symm⟩
    · simp only [hc, if_false] at hm
      split at hm <;> simp at hm

/-- The body after a successful `move` holds nothing but old segments and the
new head. -/
theorem mem_body_of_move (s s' : snake) (hm : s.move = .ret (none, s')) (c h : coord)
    (hh : s'.head = some h) (hc : c ∈ s'.body) : c ∈ s.body ∨ c = h := by
  obtain ⟨h0, _, _, hh', _, _, hb⟩ := move_ret_none s s' hm
  rw [hh] at hh'
  cases hh'
  rcases hb with ⟨_, hb⟩ | ⟨_, hb⟩ <;> rw [hb] at hc <;>
    simp only [List.mem_append, List.mem_singleton] at hc
  · exact hc
  · rcases hc with hc | hc
    · exact Or.inl (List.mem_of_mem_drop hc)
    · exact Or.inr hc

/-- The call `moveSnake` after a failed `move`. -/
theorem moveSnake_of_died (env : Env) (fuel : Nat) (a : arena) (pos : Nat) (e : String)
    (s' : snake) (hm : a.snake.move = .ret (some e, s')) :
    a.moveSnake env fuel pos =
      .ret { err := some e, arena := { a with snake := s' }, sent := [], pos := pos } := by
  unfold arena.moveSnake
  rw [hm, Run.ret_bind]
  simp [Run.pure_eq_ret]

/-- The call `moveSnake` after a successful `move` that made `c` the head, in
an arena with food `f`. -/
theorem moveSnake_of_moved (env : Env) (fuel : Nat) (a : arena) (pos : Nat)
    (s' : snake) (c : coord) (f : food)
    (hm : a.snake.move = .ret (none, s')) (hh : s'.head = some c) (hf : a.food = some f) :
    a.moveSnake env fuel pos =
      if (c.x > a.width || c.y > a.height || c.x < 0 || c.y < 0) = true then
        .ret { err := some "Died", arena := { a with snake := s' }, sent := [], pos := pos }
      else if (c.x == f.x && c.y == f.y) = true then
        (arena.placeFood env fuel
            { a with snake := { s' with length := wrapInt (s'.length + 1) } } pos) >>=
          fun p => .ret { err := none, arena := p.1, sent := [f.points], pos := p.2 }
      else
        .ret { err := none, arena := { a with snake := s' }, sent := [], pos := pos } := by
  unfold arena.moveSnake
  rw [hm, Run.ret_bind]
  simp only [ne_eq, not_true_eq_false, if_false, arena.snakeLeftArena, hh, Run.ofOption,
    Run.ret_bind, hasFood, hf, snake.die, Run.pure_eq_ret]

theorem changeDirection_body (s : snake) (d : direction) :
    (s.changeDirection d).body = s.body := by
  unfold snake.changeDirection
  simp only []
  split <;> rfl

theorem FoodOk_placeFood (env : Env) (fuel : Nat) (a : arena) (pos : Nat) (a' : arena)
    (pos' : Nat) (h : a.placeFood env fuel pos = .ret (a', pos')) : FoodOk a' := by
  obtain ⟨f, ha, _, hfree, hx0, hx1, hy0, hy1⟩ := placeFood_ret env fuel a pos a' pos' h
  subst ha
  exact ⟨f, rfl, hfree, hx0, hx1, hy0, hy1⟩

theorem FoodOk_moveSnake (env : Env) (fuel : Nat) (a : arena) (pos : Nat)
    (r : MoveSnakeResult) (hok : FoodOk a) (h : a.moveSnake env fuel pos = .ret r) :
    FoodOk r.arena := by
  obtain ⟨f, hf, hfree, hx0, hx1, hy0, hy1⟩ := hok
  cases hm : a.snake.move with
  | panicked => simp [arena.moveSnake, hm, bind, Run.bind] at h
  | diverged => simp [arena.moveSnake, hm, bind, Run.bind] at h
  | ret v =>
    obtain ⟨e, s'⟩ := v
    cases e with
    | some e =>
      rw [moveSnake_of_died env fuel a pos e s' hm] at h
      obtain ⟨_, hs⟩ := move_ret_some _ _ _ hm
      cases h
      subst hs
      exact ⟨f, hf, hfree, hx0, hx1, hy0, hy1⟩
    | none =>
      obtain ⟨h0, _, _, hh, _, _, _⟩ := move_ret_none _ _ hm
      rw [moveSnake_of_moved env fuel a pos s' _ f hm hh hf] at h
      have hold : (⟨f.x, f.y⟩ : coord) ∉ a.snake.body :=
        (isOnPosition_eq_false_iff _ _).mp hfree
      have keep : (⟨f.x, f.y⟩ : coord) ≠ advance a.snake.direction h0 →
          FoodOk { a with snake := s' } := by
        intro hne
        refine ⟨f, hf, ?_, hx0, hx1, hy0, hy1⟩
        refine (isOnPosition_eq_false_iff _ _).mpr ?_
        intro hmem
        rcases mem_body_of_move _ _ hm _ _ hh hmem with hc | hc
        · exact hold hc
        · exact hne hc
      split at h
      · rename_i hleft
        cases h
        apply keep
        intro heq
        rw [← heq] at hleft
        simp only [Bool.or_eq_true, decide_eq_true_eq] at hleft
        omega
      · split at h
        · obtain ⟨⟨a2, p2⟩, hp, h⟩ := Run.bind_eq_ret h
          cases h
          exact FoodOk_placeFood env fuel _ pos a2 p2 hp
        · rename_i hne
          cases h
          apply keep
          intro heq
          rw [← heq] at hne
          simp at hne

theorem ArenaReach_runTicks (env : Env) (fuel : Nat) :
    ∀ (n : Nat) (a : arena) (pos : Nat) (a' : arena) (pos' : Nat),
      ArenaReach a → runTicks env fuel n a pos = .ret (a', pos') → ArenaReach a' := by
  intro n
  induction n with
  | zero =>
    intro a pos a' pos' hr h
    simp only [runTicks, Run.ret.injEq, Prod.mk.injEq] at h
    exact h.1 ▸ hr
  | succ n ih =>
    intro a pos a' pos' hr h
    rw [runTicks] at h
    cases hstep : a.moveSnake env fuel pos with
    | ret r =>
      rw [hstep] at h
      exact ih r.arena r.pos a' pos' (ArenaReach.tick env fuel a pos r hr hstep) h
    | panicked => rw [hstep] at h; cases h
    | diverged => rw [hstep] at h; cases h

/-- When every drawn cell is occupied the loop of `placeFood` never leaves. -/
theorem placeFoodLoop_diverges (env : Env) (a : arena)
    (hw : 0 < a.width) (hh : 0 < a.height) :
    ∀ (fuel pos : Nat), (∀ k, a.isOccupied (sampleCell env a pos k) = true) →
      a.placeFoodLoop env fuel pos = .diverged := by
  intro fuel
  induction fuel with
  | zero => intro pos _; rfl
  | succ n ih =>
    intro pos hocc
    rw [placeFoodLoop_succ env a n pos hw hh, if_neg (by simp [hocc 0])]
    exact ih (pos + 2) (fun k => by rw [sampleCell_shift]; exact hocc (k + 1))

/-- Two steps in a row never come back to the start, unless the second
direction is the opposite of the first. -/
theorem advance_twice_ne (D D' : Int) (h : coord) (hD : advance D h ≠ h)
    (hD' : D' = D ∨ (opposites D' ≠ 0 ∧ opposites D' ≠ D)) :
    advance D' (advance D h) ≠ h := by
  obtain ⟨x, y⟩ := h
  intro heq
  simp only [advance, opposites, RIGHT, LEFT, UP, DOWN, direction] at hD hD' heq
  split_ifs at hD hD' heq <;>
    simp only [coord.mk.injEq, wrapInt, ne_eq, not_true_eq_false] at hD heq <;>
    omega

theorem changeDirection_direction (s : snake) (d : Int) :
    (s.changeDirection d).direction = s.direction ∨
    ((s.changeDirection d).direction = d ∧ opposites d ≠ 0 ∧ opposites d ≠ s.direction) := by
  unfold snake.changeDirection
  simp only []
  split
  · rename_i h
    exact Or.inr ⟨rfl, h.1, h.2⟩
  · exact Or.inl rfl

theorem changeDirection_length (s : snake) (d : direction) :
    (s.changeDirection d).length = s.length := by
  unfold snake.changeDirection
  simp only []
  split <;> rfl

/-- Body length after a successful `move`. -/
theorem move_body_length (s s' : snake) (hm : s.move = .ret (none, s')) :
    s'.length = s.length ∧
    (s.length > s.body.length → s'.body.length = s.body.length + 1) ∧
    (¬ s.length > s.body.length → s'.body.length = s.body.length) := by
  obtain ⟨h, hhead, _, _, _, hlen, hb⟩ := move_ret_none s s' hm
  have hpos : 0 < s.body.length := by
    have := List.mem_of_mem_getLast? hhead
    exact List.length_pos_of_mem this
  refine ⟨hlen, ?_, ?_⟩
  · intro hg
    rcases hb with ⟨_, hb⟩ | ⟨hn, _⟩
    · rw [hb]; simp
    · exact absurd hg hn
  · intro hg
    rcases hb with ⟨hn, _⟩ | ⟨_, hb⟩
    · exact absurd hn hg
    · rw [hb]; simp; omega

/-- Body length never exceeds target length in a reachable snake. -/
theorem SnakeReach_body_le (s : snake) (hr : SnakeReach s) :
    (s.body.length : Int) ≤ s.length := by
  induction hr with
  | init d b => simp [newSnake]
  | move s e s' _ hm ih =>
    cases e with
    | some e =>
      obtain ⟨_, hs⟩ := move_ret_some s s' e hm
      rw [hs]; exact ih
    | none =>
      obtain ⟨hlen, hg, hs⟩ := move_body_length s s' hm
      by_cases hc : s.length > s.body.length
      · rw [hg hc, hlen]; push_cast; omega
      · rw [hs hc, hlen]; exact ih
  | turn s d _ ih =>
    rw [changeDirection_body, changeDirection_length]; exact ih
  | grow s _ hlt ih =>
    show (s.body.length : Int) ≤ wrapInt (s.length + 1)
    unfold maxInt at hlt
    unfold wrapInt
    omega

/-- With positive dimensions the loop of `placeFood` never panics. -/
theorem placeFoodLoop_ne_panicked (env : Env) (a : arena)
    (hw : 0 < a.width) (hh : 0 < a.height) :
    ∀ (fuel pos : Nat), a.placeFoodLoop env fuel pos ≠ .panicked := by
  intro fuel
  induction fuel with
  | zero => intro pos h; simp [arena.placeFoodLoop] at h
  | succ n ih =>
    intro pos h
    rw [placeFoodLoop_succ env a n pos hw hh] at h
    split at h
    · cases h
    · exact ih (pos + 2) h

/-! ## Facts about the main loop -/

theorem tick_of_over (env : Env) (fuel : Nat) (g : Game) (pos : Nat) (h : g.isOver = true) :
    g.tick env fuel pos = .ret (g, [], pos) := by
  unfold Game.tick
  simp [h, Run.pure_eq_ret]

theorem tick_of_playing (env : Env) (fuel : Nat) (g : Game) (pos : Nat)
    (h : g.isOver = false) :
    g.tick env fuel pos =
      (g.arena.moveSnake env fuel pos >>= fun r =>
        .ret ({ arena := r.arena, score := g.score, isOver := decide (r.err ≠ none) },
          r.sent, r.pos)) := by
  unfold Game.tick
  simp only [h, Bool.not_false, if_true]
  congr 1
  funext r
  cases hr : r.err with
  | none => simp [Run.pure_eq_ret, h]
  | some e => simp [Run.pure_eq_ret, Game.end]

/-- In an arena whose food is worth 10 points, every score delta that a
returning `moveSnake` hands over is 10, and the food is again worth 10
points. -/
theorem moveSnake_points (env : Env) (fuel : Nat) (a : arena) (pos : Nat)
    (r : MoveSnakeResult) (f : food) (hf : a.food = some f) (hp : f.points = 10)
    (h : a.moveSnake env fuel pos = .ret r) :
    (∀ p ∈ r.sent, p = 10) ∧ ∃ f', r.arena.food = some f' ∧ f'.points = 10 := by
  cases hm : a.snake.move with
  | panicked => simp [arena.moveSnake, hm, bind, Run.bind] at h
  | diverged => simp [arena.moveSnake, hm, bind, Run.bind] at h
  | ret v =>
    obtain ⟨e, s'⟩ := v
    cases e with
    | some e =>
      rw [moveSnake_of_died env fuel a pos e s' hm] at h
      cases h
      exact ⟨by simp, f, hf, hp⟩
    | none =>
      obtain ⟨h0, _, _, hh, _, _, _⟩ := move_ret_none _ _ hm
      rw [moveSnake_of_moved env fuel a pos s' _ f hm hh hf] at h
      split at h
      · cases h
        exact ⟨by simp, f, hf, hp⟩
      · split at h
        · obtain ⟨⟨a2, p2⟩, hpl, h⟩ := Run.bind_eq_ret h
          cases h
          obtain ⟨f', ha2, hpts, _⟩ := placeFood_ret env fuel _ pos a2 p2 hpl
          subst ha2
          exact ⟨by simp [hp], f', rfl, hpts⟩
        · cases h
          exact ⟨by simp, f, hf, hp⟩

/-- The body after a returning `moveSnake` is the body after the snake's
`move`. -/
theorem moveSnake_body (env : Env) (fuel : Nat) (a : arena) (pos : Nat)
    (r : MoveSnakeResult) (h : a.moveSnake env fuel pos = .ret r) :
    ∃ e s', a.snake.move = .ret (e, s') ∧ r.arena.snake.body = s'.body := by
  unfold arena.moveSnake at h
  obtain ⟨⟨e, s'⟩, hm, h⟩ := Run.bind_eq_ret h
  refine ⟨e, s', hm, ?_⟩
  simp only [] at h
  split at h
  · cases h; rfl
  · obtain ⟨left, _, h⟩ := Run.bind_eq_ret h
    split at h
    · cases h; rfl
    · obtain ⟨hd, _, h⟩ := Run.bind_eq_ret h
      obtain ⟨eaten, _, h⟩ := Run.bind_eq_ret h
      split at h
      · obtain ⟨f, _, h⟩ := Run.bind_eq_ret h
        obtain ⟨⟨a2, p2⟩, hpl, h⟩ := Run.bind_eq_ret h
        cases h
        obtain ⟨f', ha2, _⟩ := placeFood_ret env fuel _ pos a2 p2 hpl
        subst ha2
        rfl
      · cases h; rfl

/-- One loop iteration without retry keeps a game that is over as it is, up to
the score and the direction of the snake. -/
theorem LoopStep_over (keys : ArrowKeys) (st st' : LoopState) (ev : LoopEvent)
    (hs : LoopStep keys st ev st') (hnr : ev.isRetry = false) (ho : st.game.isOver = true) :
    st'.game.isOver = true ∧
    st'.game.arena.snake.body = st.game.arena.snake.body ∧
    st'.game.arena.snake.length = st.game.arena.snake.length ∧
    st'.game.arena.food = st.game.arena.food ∧
    st'.game.arena.height = st.game.arena.height ∧
    st'.game.arena.width = st.game.arena.width := by
  cases hs with
  | tick env fuel pos g pend g' sent pos' ht =>
    rw [tick_of_over env fuel g pos ho] at ht
    cases ht
    exact ⟨ho, rfl, rfl, rfl, rfl, rfl⟩
  | points g pend p hp => exact ⟨ho, rfl, rfl, rfl, rfl, rfl⟩
  | keyboard env fuel pos g pend e g' pos' hk =>
    have hne : ¬ e.eventType = RETRY := by simpa [LoopEvent.isRetry] using hnr
    unfold Game.onKeyboardEvent at hk
    by_cases hmv : e.eventType = MOVE
    · simp only [hmv, if_true, Run.pure_eq_ret, Run.ret.injEq, Option.some.injEq,
        Prod.mk.injEq] at hk
      obtain ⟨hg, _⟩ := hk
      subst hg
      exact ⟨ho, changeDirection_body _ _, changeDirection_length _ _, rfl, rfl, rfl⟩
    · simp only [hmv, hne, if_false] at hk
      split at hk
      · simp [Run.pure_eq_ret] at hk
      · simp only [Run.pure_eq_ret, Run.ret.injEq, Option.some.injEq, Prod.mk.injEq] at hk
        obtain ⟨hg, _⟩ := hk
        subst hg
        exact ⟨ho, rfl, rfl, rfl, rfl, rfl⟩

theorem retry_ret (env : Env) (fuel : Nat) (g : Game) (pos : Nat) (g' : Game) (pos' : Nat)
    (h : g.retry env fuel pos = .ret (g', pos')) :
    g'.score = 0 ∧ g'.isOver = false ∧ g'.arena.snake = initialSnake ∧
    ∃ f, g'.arena.food = some f ∧ f.points = 10 := by
  unfold Game.retry initialArena newArena at h
  obtain ⟨⟨a, p⟩, hp, h⟩ := Run.bind_eq_ret h
  simp only [Run.pure_eq_ret, Run.ret.injEq, Prod.mk.injEq] at h
  obtain ⟨f, ha, hpts, _⟩ := placeFood_ret env fuel _ pos a p hp
  obtain ⟨hg, _⟩ := h
  subst hg ha
  exact ⟨rfl, rfl, rfl, f, rfl, hpts⟩

theorem NewGame_ret (env : Env) (fuel : Nat) (pos : Nat) (g : Game) (pos' : Nat)
    (h : NewGame env fuel pos = .ret (g, pos')) :
    g.score = 0 ∧ g.isOver = false ∧ g.arena.snake = initialSnake ∧
    ∃ f, g.arena.food = some f ∧ f.points = 10 := by
  unfold NewGame initialArena newArena at h
  obtain ⟨⟨a, p⟩, hp, h⟩ := Run.bind_eq_ret h
  simp only [Run.pure_eq_ret, Run.ret.injEq, Prod.mk.injEq] at h
  obtain ⟨f, ha, hpts, _⟩ := placeFood_ret env fuel _ pos a p hp
  obtain ⟨hg, _⟩ := h
  subst hg ha
  exact ⟨rfl, rfl, rfl, f, rfl, hpts⟩

/-- The effect of one loop iteration on score, pending deltas and the worth of
the food, from a state whose pending deltas are all 10, whose food is worth 10
and whose score can take 10 more without leaving `int`. -/
theorem LoopStep_score (keys : ArrowKeys) (st st' : LoopState) (ev : LoopEvent)
    (hs : LoopStep keys st ev st')
    (h0 : 0 ≤ st.game.score) (h1 : st.game.score + 10 ≤ maxInt)
    (hpend : ∀ p ∈ st.pending, p = 10)
    (hfood : ∃ f, st.game.arena.food = some f ∧ f.points = 10) :
    (∀ p ∈ st'.pending, p = 10) ∧
    (∃ f, st'.game.arena.food = some f ∧ f.points = 10) ∧
    (ev.isRetry = true → st'.game.score = 0) ∧
    (ev.isRetry = false →
      (st'.game.score = st.game.score ∨ st'.game.score = st.game.score + 10)) ∧
    (∀ p, ev = .points p → p = 10 ∧ st'.game.score = st.game.score + 10) := by
  cases hs with
  | tick env fuel pos g pend g' sent pos' ht =>
    simp only at h0 h1 hpend hfood
    refine ⟨?_, ?_, by simp [LoopEvent.isRetry], ?_, by simp⟩
    all_goals
      by_cases ho : g.isOver = true
      · rw [tick_of_over env fuel g pos ho] at ht
        cases ht
        first
          | exact fun _ => Or.inl rfl
          | exact hfood
          | simpa using hpend
      · simp only [Bool.not_eq_true] at ho
        rw [tick_of_playing env fuel g pos ho] at ht
        obtain ⟨r, hr, ht⟩ := Run.bind_eq_ret ht
        cases ht
        obtain ⟨f, hf, hp⟩ := hfood
        obtain ⟨hsent, hfood'⟩ := moveSnake_points env fuel g.arena pos r f hf hp hr
        first
          | exact fun _ => Or.inl rfl
          | exact hfood'
          | (intro p hp'
             simp only [List.mem_append] at hp'
             rcases hp' with hp' | hp'
             · exact hpend p hp'
             · exact hsent p hp')
  | points g pend p hp =>
    simp only at h0 h1 hpend hfood
    have hp10 : p = 10 := hpend p hp
    have hsc : (g.onPoints p).score = g.score + 10 := by
      subst hp10
      show wrapInt (g.score + 10) = g.score + 10
      unfold maxInt at h1
      unfold wrapInt
      omega
    refine ⟨fun q hq => hpend q (List.mem_of_mem_erase hq), hfood, by simp [LoopEvent.isRetry],
      fun _ => Or.inr hsc, ?_⟩
    intro q hq
    cases hq
    exact ⟨hp10, hsc⟩
  | keyboard env fuel pos g pend e g' pos' hk =>
    simp only at h0 h1 hpend hfood
    unfold Game.onKeyboardEvent at hk
    refine ⟨hpend, ?_, ?_, ?_, by simp⟩
    all_goals
      by_cases hmv : e.eventType = MOVE
      · simp only [hmv, if_true, Run.pure_eq_ret, Run.ret.injEq, Option.some.injEq,
          Prod.mk.injEq] at hk
        obtain ⟨hg, _⟩ := hk
        subst hg
        first
          | exact hfood
          | exact fun _ => Or.inl rfl
          | (intro hr
             simp [LoopEvent.isRetry, hmv, MOVE, RETRY] at hr)
      · by_cases hre : e.eventType = RETRY
        · simp only [hmv, hre, if_true, if_false] at hk
          obtain ⟨⟨g2, p2⟩, hret, hk⟩ := Run.bind_eq_ret hk
          simp only [Run.pure_eq_ret, Run.ret.injEq, Option.some.injEq, Prod.mk.injEq] at hk
          obtain ⟨hg, _⟩ := hk
          subst hg
          obtain ⟨hs0, _, _, hf⟩ := retry_ret env fuel g pos g2 p2 hret
          first
            | exact hf
            | exact fun _ => hs0
            | (intro hr
               simp [LoopEvent.isRetry, hre] at hr)
        · simp only [hmv, hre, if_false] at hk
          split at hk
          · simp [Run.pure_eq_ret] at hk
          · simp only [Run.pure_eq_ret, Run.ret.injEq, Option.some.injEq, Prod.mk.injEq] at hk
            obtain ⟨hg, _⟩ := hk
            subst hg
            first
              | exact hfood
              | exact fun _ => Or.inl rfl
              | (intro hr
                 simp [LoopEvent.isRetry, hre] at hr)

/-- Invariant of the main loop, as long as ten points per iteration fit into
`int`: the score lies between 0 and ten times the number of iterations, every
pending delta is 10 and the food is worth 10. -/
theorem LoopReach_score (keys : ArrowKeys) (n : Nat) (st : LoopState)
    (hr : LoopReach keys n st) (hn : 10 * (n : Int) ≤ maxInt) :
    0 ≤ st.game.score ∧ st.game.score ≤ 10 * (n : Int) ∧
    (∀ p ∈ st.pending, p = 10) ∧
    (∃ f, st.game.arena.food = some f ∧ f.points = 10) := by
  induction hr with
  | init env fuel pos g pos' hnew =>
    obtain ⟨hs, _, _, hf⟩ := NewGame_ret env fuel pos g pos' hnew
    simp only [hs]
    exact ⟨le_refl _, by simp, by simp, hf⟩
  | step n st ev st' _ hstep ih =>
    have hn' : 10 * (n : Int) ≤ maxInt := by push_cast at hn; omega
    obtain ⟨h0, h1, hpend, hfood⟩ := ih hn'
    have hroom : st.game.score + 10 ≤ maxInt := by push_cast at hn; omega
    obtain ⟨hpend', hfood', hretry, hother, _⟩ :=
      LoopStep_score keys st st' ev hstep h0 hroom hpend hfood
    refine ⟨?_, ?_, hpend', hfood'⟩
    · cases hev : ev.isRetry with
      | true => rw [hretry hev]
      | false => rcases hother hev with h | h <;> omega
    · push_cast
      cases hev : ev.isRetry with
      | true => rw [hretry hev]; omega
      | false => rcases hother hev with h | h <;> omega

theorem LoopReach_loopRun (keys : ArrowKeys) (env : Env) (fuel : Nat) :
    ∀ (evs : List LoopEvent) (n : Nat) (st : LoopState) (pos : Nat) (st' : LoopState)
      (pos' : Nat), LoopReach keys n st →
      loopRun keys env fuel evs st pos = some (st', pos') →
      LoopReach keys (n + evs.length) st' := by
  intro evs
  induction evs with
  | nil =>
    intro n st pos st' pos' hr h
    simp only [loopRun, Option.some.injEq, Prod.mk.injEq] at h
    exact h.1 ▸ hr
  | cons ev evs ih =>
    intro n st pos st' pos' hr h
    have hlen : n + (ev :: evs).length = (n + 1) + evs.length := by
      simp only [List.length_cons]; omega
    rw [hlen]
    cases ev with
    | tick =>
      rw [loopRun] at h
      split at h
      · rename_i g' sent p' ht
        exact ih (n + 1) _ p' st' pos'
          (LoopReach.step n st .tick _ hr
            (LoopStep.tick env fuel pos st.game st.pending g' sent p' ht)) h
      · cases h
    | points p =>
      rw [loopRun] at h
      split at h
      · rename_i hp
        exact ih (n + 1) _ pos st' pos'
          (LoopReach.step n st (.points p) _ hr (LoopStep.points st.game st.pending p hp)) h
      · cases h
    | keyboard e =>
      rw [loopRun] at h
      split at h
      · rename_i g' p' hk
        exact ih (n + 1) _ p' st' pos'
          (LoopReach.step n st (.keyboard e) _ hr
            (LoopStep.keyboard env fuel pos st.game st.pending e g' p' hk)) h
      · cases h

/-- The state `shortPlayEnd` is reached from `NewGame` in twelve iterations. -/
theorem LoopReach_shortPlayEnd : LoopReach termboxKeys 12 shortPlayEnd :=
  LoopReach_loopRun termboxKeys countEnv 1 shortPlay 0 ⟨countGame, []⟩ 2 shortPlayEnd 4
    (LoopReach.init countEnv 1 0 countGame 2 (by decide)) (by decide)

/-- Go's truncating division by 10 in terms of the flooring one. -/
theorem tdiv_ten (s : Int) :
    Int.tdiv s 10 = if 0 ≤ s then s / 10 else -((-s) / 10) := by
  split
  · rename_i h
    exact Int.tdiv_eq_ediv h (by decide)
  · rename_i h
    have h' : 0 ≤ -s := by omega
    have := Int.tdiv_eq_ediv h' (show (0 : Int) ≤ 10 by decide)
    rw [Int.neg_tdiv] at this
    omega

/-- Without overflow `moveInterval` is `100 - score / 10` milliseconds, the
division truncating toward zero. -/
theorem moveInterval_in_range (g : Game) (hlo : -92233720367549 ≤ g.score)
    (hhi : g.score ≤ 92233720369549) :
    g.moveInterval = (100 - Int.tdiv g.score 10) * 1000000 ∧
    -9223372036754 ≤ Int.tdiv g.score 10 ∧ Int.tdiv g.score 10 ≤ 9223372036954 := by
  have hq : -9223372036754 ≤ Int.tdiv g.score 10 ∧ Int.tdiv g.score 10 ≤ 9223372036954 := by
    rw [tdiv_ten]
    split <;> omega
  refine ⟨?_, hq⟩
  unfold Game.moveInterval
  generalize Int.tdiv g.score 10 = q at hq ⊢
  have h1 : wrapInt (100 - q) = 100 - q := by unfold wrapInt; omega
  simp only [h1, Millisecond]
  unfold wrapInt
  omega

/-- A direction outside the four constants is ignored by `changeDirection`. -/
theorem changeDirection_of_not_direction (s : snake) (d : Int)
    (h1 : d ≠ RIGHT) (h2 : d ≠ LEFT) (h3 : d ≠ UP) (h4 : d ≠ DOWN) :
    s.changeDirection d = s := by
  unfold snake.changeDirection opposites
  simp [h1, h2, h3, h4]

/-- A move never empties the body. -/
theorem move_body_ne_nil (s : snake) (e : error) (s' : snake) (hne : s.body ≠ [])
    (hm : s.move = .ret (e, s')) : s'.body ≠ [] := by
  cases e with
  | some e =>
    obtain ⟨_, hs⟩ := move_ret_some s s' e hm
    rw [hs]; exact hne
  | none =>
    obtain ⟨h, _, _, _, _, _, hb⟩ := move_ret_none s s' hm
    rcases hb with ⟨_, hb⟩ | ⟨_, hb⟩ <;> rw [hb] <;> simp

theorem SnakeReachFrom_body_ne_nil (s0 s : snake) (h0 : s0.body ≠ [])
    (hr : SnakeReachFrom s0 s) : s.body ≠ [] := by
  induction hr with
  | init => exact h0
  | move s e s' _ hm ih => exact move_body_ne_nil s e s' ih hm
  | turn s d _ ih => rw [changeDirection_body]; exact ih
  | grow s _ ih => exact ih

/-- A move keeps the body segments pairwise distinct. -/
theorem move_body_nodup (s : snake) (e : error) (s' : snake) (hn : s.body.Nodup)
    (hm : s.move = .ret (e, s')) : s'.body.Nodup := by
  cases e with
  | some e =>
    obtain ⟨_, hs⟩ := move_ret_some s s' e hm
    rw [hs]; exact hn
  | none =>
    obtain ⟨h, _, hfree, _, _, _, hb⟩ := move_ret_none s s' hm
    rcases hb with ⟨_, hb⟩ | ⟨_, hb⟩ <;> rw [hb]
    · rw [List.nodup_append]
      refine ⟨hn, List.nodup_singleton _, ?_⟩
      intro x hx hx'
      rw [List.mem_singleton] at hx'
      exact hfree (hx' ▸ hx)
    · rw [List.nodup_append]
      refine ⟨hn.sublist (List.drop_sublist 1 s.body), List.nodup_singleton _, ?_⟩
      intro x hx hx'
      rw [List.mem_singleton] at hx'
      exact hfree (hx' ▸ List.mem_of_mem_drop hx)

/-- One loop iteration keeps the body segments pairwise distinct. -/
theorem LoopStep_nodup (keys : ArrowKeys) (st st' : LoopState) (ev : LoopEvent)
    (hs : LoopStep keys st ev st') (hn : st.game.arena.snake.body.Nodup) :
    st'.game.arena.snake.body.Nodup := by
  cases hs with
  | tick env fuel pos g pend g' sent pos' ht =>
    by_cases ho : g.isOver = true
    · rw [tick_of_over env fuel g pos ho] at ht
      cases ht
      exact hn
    · simp only [Bool.not_eq_true] at ho
      rw [tick_of_playing env fuel g pos ho] at ht
      obtain ⟨r, hr, ht⟩ := Run.bind_eq_ret ht
      cases ht
      obtain ⟨e, s', hm, hb⟩ := moveSnake_body env fuel g.arena pos r hr
      show r.arena.snake.body.Nodup
      rw [hb]
      exact move_body_nodup _ e s' hn hm
  | points g pend p hp => exact hn
  | keyboard env fuel pos g pend e g' pos' hk =>
    unfold Game.onKeyboardEvent at hk
    by_cases hmv : e.eventType = MOVE
    · simp only [hmv, if_true, Run.pure_eq_ret, Run.ret.injEq, Option.some.injEq,
        Prod.mk.injEq] at hk
      obtain ⟨hg, _⟩ := hk
      subst hg
      show (g.arena.snake.changeDirection _).body.Nodup
      rw [changeDirection_body]
      exact hn
    · by_cases hre : e.eventType = RETRY
      · simp only [hmv, hre, if_true, if_false] at hk
        obtain ⟨⟨g2, p2⟩, hret, hk⟩ := Run.bind_eq_ret hk
        simp only [Run.pure_eq_ret, Run.ret.injEq, Option.some.injEq, Prod.mk.injEq] at hk
        obtain ⟨hg, _⟩ := hk
        subst hg
        obtain ⟨_, _, hsn, _⟩ := retry_ret env fuel g pos g2 p2 hret
        show g2.arena.snake.body.Nodup
        rw [hsn]
        decide
      · simp only [hmv, hre, if_false] at hk
        split at hk
        · simp [Run.pure_eq_ret] at hk
        · simp only [Run.pure_eq_ret, Run.ret.injEq, Option.some.injEq, Prod.mk.injEq] at hk
          obtain ⟨hg, _⟩ := hk
          subst hg
          exact hn

/-! ## Claims -/

/-- C1: for a snake with a non-empty body, `move` returns the died error and
leaves body, direction and target length as they were whenever the candidate
cell (the head advanced one step in the current direction) is any body
segment, the oldest one included; it returns an error in no other case, and
returns `nil` when the candidate cell is free. -/
theorem move_dies_iff_candidate_on_body (s : snake) (hne : s.body ≠ []) :
    ∃ h, s.head = some h ∧
      (advance s.direction h ∈ s.body ↔ s.move = .ret (s.die, s)) ∧
      (s.body.head? = some (advance s.direction h) → s.move = .ret (s.die, s)) ∧
      (∀ e s', s.move = .ret (e, s') → e ≠ none →
        advance s.direction h ∈ s.body ∧ e = some "Died" ∧ s' = s) ∧
      (advance s.direction h ∉ s.body → ∃ s', s.move = .ret (none, s')) := by
  refine ⟨s.body.getLast hne, head_of_ne_nil s hne, ?_, ?_, ?_, ?_⟩
  · rw [move_eq_of_head s _ (head_of_ne_nil s hne)]
    constructor
    · intro hc
      simp only [hc, if_true]
    · intro hm
      by_contra hc
      simp only [hc, if_false] at hm
      split at hm <;> simp [snake.die] at hm
  · intro hfirst
    rw [move_eq_of_head s _ (head_of_ne_nil s hne)]
    have hc : advance s.direction (s.body.getLast hne) ∈ s.body :=
      List.mem_of_mem_head? hfirst
    simp only [hc, if_true]
  · intro e s' hm he
    rw [move_eq_of_head s _ (head_of_ne_nil s hne)] at hm
    by_cases hc : advance s.direction (s.body.getLast hne) ∈ s.body
    · simp only [hc, if_true, Run.ret.injEq, Prod.mk.injEq] at hm
      exact ⟨hc, hm.1.symm, hm.2.symm⟩
    · simp only [hc, if_false] at hm
      split at hm <;>
        · simp only [Run.ret.injEq, Prod.mk.injEq] at hm
          exact absurd hm.1.symm he
  · intro hc
    rw [move_eq_of_head s _ (head_of_ne_nil s hne)]
    simp only [hc, if_false]
    split
    · exact ⟨_, rfl⟩
    · exact ⟨_, rfl⟩

/-- Witness for C1: the initial body heading DOWN, whose candidate cell `(1,3)`
is the neck. -/
theorem move_dies_iff_candidate_on_body_witness :
    (⟨[⟨1, 1⟩, ⟨1, 2⟩, ⟨1, 3⟩, ⟨1, 4⟩], DOWN, 4⟩ : snake).body ≠ [] ∧
    ∃ h, (⟨[⟨1, 1⟩, ⟨1, 2⟩, ⟨1, 3⟩, ⟨1, 4⟩], DOWN, 4⟩ : snake).head = some h ∧
      (advance DOWN h ∈ [⟨1, 1⟩, ⟨1, 2⟩, ⟨1, 3⟩, (⟨1, 4⟩ : coord)] ↔
        (⟨[⟨1, 1⟩, ⟨1, 2⟩, ⟨1, 3⟩, ⟨1, 4⟩], DOWN, 4⟩ : snake).move =
          .ret (some "Died", ⟨[⟨1, 1⟩, ⟨1, 2⟩, ⟨1, 3⟩, ⟨1, 4⟩], DOWN, 4⟩)) :=
  ⟨by decide,
   (move_dies_iff_candidate_on_body ⟨[⟨1, 1⟩, ⟨1, 2⟩, ⟨1, 3⟩, ⟨1, 4⟩], DOWN, 4⟩
      (by decide)).imp (fun _ hh => ⟨hh.1, hh.2.1⟩)⟩

/-- C2: with current direction `d` among the four directions,
`changeDirection(opposite d)` leaves the direction as it is, and
`changeDirection(d')` for any of the four directions other than the opposite
of `d` sets it to `d'`; body and target length stay the same in both cases. -/
theorem changeDirection_guard (s : snake)
    (hd : s.direction = RIGHT ∨ s.direction = LEFT ∨ s.direction = UP ∨ s.direction = DOWN) :
    ((s.changeDirection (opposites s.direction)).direction = s.direction ∧
      (s.changeDirection (opposites s.direction)).body = s.body ∧
      (s.changeDirection (opposites s.direction)).length = s.length) ∧
    ∀ d', (d' = RIGHT ∨ d' = LEFT ∨ d' = UP ∨ d' = DOWN) → d' ≠ opposites s.direction →
      (s.changeDirection d').direction = d' ∧
      (s.changeDirection d').body = s.body ∧
      (s.changeDirection d').length = s.length := by
  obtain ⟨b, d, n⟩ := s
  simp only at hd
  constructor
  · rcases hd with h | h | h | h <;> subst h <;>
      simp [snake.changeDirection, opposites, RIGHT, LEFT, UP, DOWN]
  · intro d' hd' hne
    rcases hd with h | h | h | h <;> subst h <;>
      rcases hd' with h' | h' | h' | h' <;> subst h' <;>
      simp_all [snake.changeDirection, opposites, RIGHT, LEFT, UP, DOWN]

/-- Witness for C2: the initial snake, heading RIGHT. -/
theorem changeDirection_guard_witness :
    (initialSnake.direction = RIGHT ∨ initialSnake.direction = LEFT ∨
      initialSnake.direction = UP ∨ initialSnake.direction = DOWN) ∧
    (initialSnake.changeDirection LEFT).direction = RIGHT ∧
    (initialSnake.changeDirection UP).direction = UP :=
  ⟨Or.inl rfl,
   (changeDirection_guard initialSnake (Or.inl rfl)).1.1,
   ((changeDirection_guard initialSnake (Or.inl rfl)).2 UP
      (Or.inr (Or.inr (Or.inl rfl))) (by decide)).1⟩

/-- C3, the code against the claim: one `move` of the initial snake does not
give the body `[(1,2),(1,3),(1,4),(2,1)]`. -/
theorem initial_move_not_as_stated :
    ¬ ∃ s', initialSnake.move = .ret (none, s') ∧
      s'.body = [⟨1, 2⟩, ⟨1, 3⟩, ⟨1, 4⟩, ⟨2, 1⟩] := by
  rintro ⟨s', hm, hb⟩
  have hmove : initialSnake.move =
      .ret (none, ⟨[⟨1, 2⟩, ⟨1, 3⟩, ⟨1, 4⟩, ⟨2, 4⟩], RIGHT, 4⟩) := by decide
  rw [hmove] at hm
  simp only [Run.ret.injEq, Prod.mk.injEq, true_and] at hm
  subst hm
  revert hb
  decide

/-- C3, the code at the failing input: the initial snake has body
`[(1,1),(1,2),(1,3),(1,4)]`, direction RIGHT and target length 4.  Its first
element `(1,1)`, which the comment in `initialSnake` calls the snake head,
advanced one step RIGHT is the claimed new head `(2,1)`; but `head` returns the
last element `(1,4)`, and one `move` succeeds with the body
`[(1,2),(1,3),(1,4),(2,4)]`, which is not the claimed body
`[(1,2),(1,3),(1,4),(2,1)]`; direction and target length are as before. -/
theorem initial_move :
    initialSnake = ⟨[⟨1, 1⟩, ⟨1, 2⟩, ⟨1, 3⟩, ⟨1, 4⟩], RIGHT, 4⟩ ∧
    initialSnake.head = some ⟨1, 4⟩ ∧
    initialSnake.move = .ret (none, ⟨[⟨1, 2⟩, ⟨1, 3⟩, ⟨1, 4⟩, ⟨2, 4⟩], RIGHT, 4⟩) ∧
    initialSnake.body.head? = some ⟨1, 1⟩ ∧
    advance initialSnake.direction ⟨1, 1⟩ = ⟨2, 1⟩ ∧
    initialSnake.move ≠ .ret (none, ⟨[⟨1, 2⟩, ⟨1, 3⟩, ⟨1, 4⟩, ⟨2, 1⟩], RIGHT, 4⟩) := by
  decide

/-- C5: in every arena state reachable from `newArena` by `changeDirection`
and `moveSnake` calls, whatever the random draws, the food lies on a cell that
no body segment occupies, inside `[0,width) x [0,height)`. -/
theorem food_never_on_snake (a : arena) (hr : ArenaReach a) :
    ∃ f, a.food = some f ∧ ⟨f.x, f.y⟩ ∉ a.snake.body ∧
      a.isOccupied ⟨f.x, f.y⟩ = false ∧
      0 ≤ f.x ∧ f.x < a.width ∧ 0 ≤ f.y ∧ f.y < a.height := by
  have hok : FoodOk a := by
    induction hr with
    | init env fuel s h w pos a pos' hnew => exact FoodOk_placeFood env fuel _ pos a pos' hnew
    | turn a d _ ih =>
      obtain ⟨f, hf, hfree, hrest⟩ := ih
      refine ⟨f, hf, ?_, hrest⟩
      simpa [arena.isOccupied, snake.isOnPosition, changeDirection_body] using hfree
    | tick env fuel a pos r _ hstep ih => exact FoodOk_moveSnake env fuel a pos r ih hstep
  obtain ⟨f, hf, hfree, hrest⟩ := hok
  exact ⟨f, hf, (isOnPosition_eq_false_iff _ _).mp hfree, hfree, hrest⟩

/-- C4, the code at the failing inputs: in the 50 x 20 game arena, reached from
`newArena` by ticks, a move that takes the head to `x = width = 50` (or, after
a turn UP, to `y = height = 20`) succeeds and `moveSnake` returns `nil`, not
the died error. -/
theorem moveSnake_survives_on_edge :
    ArenaReach rightEdgeArena ∧ ArenaReach topEdgeArena ∧
    (∀ (env : Env) (fuel pos : Nat),
      rightEdgeArena.moveSnake env fuel pos =
        .ret { err := none,
               arena := ⟨some ⟨64, 10, 7, 7⟩,
                 ⟨[⟨47, 4⟩, ⟨48, 4⟩, ⟨49, 4⟩, ⟨50, 4⟩], RIGHT, 4⟩, 20, 50⟩,
               sent := [], pos := pos }) ∧
    (∀ (env : Env) (fuel pos : Nat),
      topEdgeArena.moveSnake env fuel pos =
        .ret { err := none,
               arena := ⟨some ⟨64, 10, 7, 7⟩,
                 ⟨[⟨1, 17⟩, ⟨1, 18⟩, ⟨1, 19⟩, ⟨1, 20⟩], UP, 4⟩, 20, 50⟩,
               sent := [], pos := pos }) := by
  have h0 : ArenaReach ⟨some ⟨64, 10, 7, 7⟩, initialSnake, 20, 50⟩ :=
    ArenaReach.init sevenEnv 1 initialSnake 20 50 0 _ 2 (by decide)
  refine ⟨?_, ?_, fun _ _ _ => rfl, fun _ _ _ => rfl⟩
  · exact ArenaReach_runTicks sevenEnv 1 48 _ 2 rightEdgeArena 2 h0 (by decide)
  · exact ArenaReach_runTicks sevenEnv 1 15 _ 2 topEdgeArena 2
      (ArenaReach.turn _ UP h0) (by decide)

/-- Witness for C5: the arena of a new game one tick after its construction. -/
theorem food_never_on_snake_witness :
    ArenaReach ⟨some ⟨64, 10, 7, 7⟩, ⟨[⟨1, 2⟩, ⟨1, 3⟩, ⟨1, 4⟩, ⟨2, 4⟩], RIGHT, 4⟩, 20, 50⟩ ∧
    ∃ f, (some ⟨64, 10, 7, 7⟩ : Option food) = some f ∧
      ⟨f.x, f.y⟩ ∉ [⟨1, 2⟩, ⟨1, 3⟩, ⟨1, 4⟩, (⟨2, 4⟩ : coord)] :=
  (fun hr => ⟨hr, (food_never_on_snake _ hr).imp (fun _ h => ⟨h.1, h.2.1⟩)⟩)
    (ArenaReach_runTicks sevenEnv 1 1 ⟨some ⟨64, 10, 7, 7⟩, initialSnake, 20, 50⟩ 2 _ 2
      (ArenaReach.init sevenEnv 1 initialSnake 20 50 0 _ 2 (by decide)) (by decide))

/-- C6 as stated fails: in the 1 x 1 arena `oneCellArena` (built by `newArena`)
the move succeeds and takes the head to `(0,0)`, inside the arena and on the
food, yet `moveSnake` never returns, whatever the random source draws: the
moved snake fills the grid and `placeFood` finds no free cell. -/
theorem moveSnake_full_grid_diverges :
    ArenaReach oneCellArena ∧
    oneCellArena.snake.move = .ret (none, ⟨[⟨0, 0⟩], RIGHT, 1⟩) ∧
    oneCellArena.food = some ⟨64, 10, 0, 0⟩ ∧
    ((0 : Int) < oneCellArena.width ∧ (0 : Int) < oneCellArena.height) ∧
    ∀ (env : Env) (fuel pos : Nat), oneCellArena.moveSnake env fuel pos = .diverged := by
  refine ⟨ArenaReach.init zeroEnv 1 (newSnake RIGHT [⟨-1, 0⟩]) 1 1 0 _ 2 (by decide),
    by decide, rfl, by decide, ?_⟩
  intro env fuel pos
  rw [moveSnake_of_moved env fuel oneCellArena pos ⟨[⟨0, 0⟩], RIGHT, 1⟩ ⟨0, 0⟩ ⟨64, 10, 0, 0⟩
    (by decide) (by decide) rfl]
  rw [if_neg (by decide), if_pos (by decide)]
  unfold arena.placeFood
  rw [placeFoodLoop_diverges env _ (by decide) (by decide) fuel pos]
  · rfl
  · intro k
    simp only [oneCellArena, sampleCell, Int.emod_one]
    decide

/-- C6, amended: take an arena with food `f` whose snake moves successfully,
the new head `c` lying inside `[0,width) x [0,height)`.
If `c` is the food cell, then every return of `moveSnake` is a success that
hands over exactly the one score delta `f.points`, raises the target length by
one (in 64-bit arithmetic, so by exactly 1 below the largest `int`), keeps
body and direction of the moved snake and the dimensions, and carries a new
food worth 10 points on a cell the snake does not occupy; and `moveSnake`
does return as soon as the random source draws a cell that is free of the
moved snake.  If `c` is not the food cell, `moveSnake` returns success, hands
over no score delta and leaves target length and food as they were.  Every
food built by `newFood` is worth 10 points. -/
theorem moveSnake_food_cases (a : arena) (f : food) (s' : snake) (c : coord)
    (hf : a.food = some f) (hm : a.snake.move = .ret (none, s')) (hh : s'.head = some c)
    (hin : 0 ≤ c.x ∧ c.x < a.width ∧ 0 ≤ c.y ∧ c.y < a.height) :
    ((c.x = f.x ∧ c.y = f.y) →
      ∀ (env : Env) (pos : Nat),
        (∀ (fuel : Nat) (r : MoveSnakeResult), a.moveSnake env fuel pos = .ret r →
          r.err = none ∧ r.sent = [f.points] ∧
          r.arena.snake = { s' with length := wrapInt (a.snake.length + 1) } ∧
          (a.snake.length < 9223372036854775807 →
            -9223372036854775808 ≤ a.snake.length →
            r.arena.snake.length = a.snake.length + 1) ∧
          r.arena.height = a.height ∧ r.arena.width = a.width ∧
          ∃ f', r.arena.food = some f' ∧ f'.points = 10 ∧
            ⟨f'.x, f'.y⟩ ∉ r.arena.snake.body) ∧
        ((∃ k, arena.isOccupied { a with snake := s' } (sampleCell env a pos k) = false) →
          ∃ (fuel : Nat) (r : MoveSnakeResult), a.moveSnake env fuel pos = .ret r)) ∧
    (¬ (c.x = f.x ∧ c.y = f.y) →
      ∀ (env : Env) (fuel pos : Nat),
        a.moveSnake env fuel pos =
          .ret { err := none, arena := { a with snake := s' }, sent := [], pos := pos }) ∧
    (∀ (env : Env) (pos : Nat) (x y : Int) (fd : food) (pos' : Nat),
      newFood env pos x y = .ret (fd, pos') → fd.points = 10) := by
  have hleft : ¬ ((c.x > a.width || c.y > a.height || c.x < 0 || c.y < 0) = true) := by
    simp only [Bool.or_eq_true, decide_eq_true_eq]
    omega
  have hlen : s'.length = a.snake.length := by
    obtain ⟨_, _, _, _, _, hl, _⟩ := move_ret_none _ _ hm
    exact hl
  refine ⟨?_, ?_, ?_⟩
  · intro hfood env pos
    have heat : (c.x == f.x && c.y == f.y) = true := by simp [hfood.1, hfood.2]
    constructor
    · intro fuel r hr
      rw [moveSnake_of_moved env fuel a pos s' c f hm hh hf, if_neg hleft, if_pos heat] at hr
      obtain ⟨⟨a2, p2⟩, hp, hr⟩ := Run.bind_eq_ret hr
      cases hr
      obtain ⟨f', ha2, hpts, hfree, _⟩ := placeFood_ret env fuel _ pos a2 p2 hp
      subst ha2
      refine ⟨rfl, rfl, by rw [← hlen], ?_, rfl, rfl, f', rfl, hpts,
        (isOnPosition_eq_false_iff _ _).mp hfree⟩
      intro h1 h2
      show wrapInt (s'.length + 1) = a.snake.length + 1
      rw [hlen]
      unfold wrapInt
      omega
    · intro hex
      obtain ⟨e, q, hp⟩ := placeFood_first_free env
        { a with snake := { s' with length := wrapInt (s'.length + 1) } }
        (show 0 < a.width by omega) (show 0 < a.height by omega)
        (Nat.find hex) pos (Nat.find hex + 1) (Nat.lt_succ_self _)
        (fun j hj => by
          have := Nat.find_min hex hj
          simpa using this)
        (Nat.find_spec hex)
      refine ⟨Nat.find hex + 1, ?_⟩
      rw [moveSnake_of_moved env _ a pos s' c f hm hh hf, if_neg hleft, if_pos heat, hp,
        Run.ret_bind]
      exact ⟨_, rfl⟩
  · intro hne env fuel pos
    have heat : ¬ ((c.x == f.x && c.y == f.y) = true) := by
      simpa using hne
    rw [moveSnake_of_moved env fuel a pos s' c f hm hh hf, if_neg hleft, if_neg heat]
  · intro env pos x y fd pos' hnf
    obtain ⟨e, q, h⟩ := newFood_ret env pos x y
    rw [h] at hnf
    cases hnf
    rfl

/-- Witness for C6: scenario 2 of the spec, head at `(2,1)` heading RIGHT with
the food at `(3,1)`; the random source draws the free cell `(7,7)`. -/
theorem moveSnake_food_cases_witness :
    scenario2Arena.food = some ⟨64, 10, 3, 1⟩ ∧
    scenario2Arena.snake.move = .ret (none, ⟨[⟨1, 1⟩, ⟨2, 1⟩, ⟨3, 1⟩], RIGHT, 3⟩) ∧
    (⟨[⟨1, 1⟩, ⟨2, 1⟩, ⟨3, 1⟩], RIGHT, 3⟩ : snake).head = some ⟨3, 1⟩ ∧
    ((0 : Int) ≤ 3 ∧ (3 : Int) < scenario2Arena.width ∧
      (0 : Int) ≤ 1 ∧ (1 : Int) < scenario2Arena.height) ∧
    (∀ (fuel : Nat) (r : MoveSnakeResult), scenario2Arena.moveSnake sevenEnv fuel 0 = .ret r →
      r.err = none ∧ r.sent = [10] ∧ r.arena.snake.length = 4) ∧
    (∃ (fuel : Nat) (r : MoveSnakeResult), scenario2Arena.moveSnake sevenEnv fuel 0 = .ret r) ∧
    scenario2Arena.moveSnake sevenEnv 1 0 =
      .ret { err := none,
             arena := ⟨some ⟨64, 10, 7, 7⟩, ⟨[⟨1, 1⟩, ⟨2, 1⟩, ⟨3, 1⟩], RIGHT, 4⟩, 20, 50⟩,
             sent := [10], pos := 2 } := by
  have T := moveSnake_food_cases scenario2Arena ⟨64, 10, 3, 1⟩
    ⟨[⟨1, 1⟩, ⟨2, 1⟩, ⟨3, 1⟩], RIGHT, 3⟩ ⟨3, 1⟩ rfl (by decide) (by decide) (by decide)
  have T1 := T.1 ⟨rfl, rfl⟩ sevenEnv 0
  refine ⟨rfl, by decide, by decide, by decide, ?_, T1.2 ⟨0, by decide⟩, by decide⟩
  intro fuel r hr
  obtain ⟨h1, h2, _, h4, _⟩ := T1.1 fuel r hr
  exact ⟨h1, h2, h4 (by decide) (by decide)⟩

/-- C7 as stated fails: on the initial snake, whose head `(1,4)` sits above its
neck `(1,3)` while the direction is RIGHT, a single `changeDirection(DOWN)` is
accepted, the candidate cell of the next `move` is the neck, and the move
dies.  It fails as well after a move when an earlier direction change is still
pending: from the initial snake, `move`, `changeDirection(UP)` and then the
single `changeDirection(LEFT)` point the head `(2,4)` at its neck `(1,4)`. -/
theorem initial_snake_reverses_into_neck :
    (initialSnake.neck = some ⟨1, 3⟩ ∧
      (initialSnake.changeDirection DOWN).head = some ⟨1, 4⟩ ∧
      (initialSnake.changeDirection DOWN).neck = some ⟨1, 3⟩ ∧
      (initialSnake.changeDirection DOWN).direction = DOWN ∧
      advance (initialSnake.changeDirection DOWN).direction ⟨1, 4⟩ = ⟨1, 3⟩ ∧
      (initialSnake.changeDirection DOWN).move =
        .ret (some "Died", initialSnake.changeDirection DOWN)) ∧
    (initialSnake.move = .ret (none, ⟨[⟨1, 2⟩, ⟨1, 3⟩, ⟨1, 4⟩, ⟨2, 4⟩], RIGHT, 4⟩) ∧
      (((⟨[⟨1, 2⟩, ⟨1, 3⟩, ⟨1, 4⟩, ⟨2, 4⟩], RIGHT, 4⟩ : snake).changeDirection
        UP).changeDirection LEFT) = ⟨[⟨1, 2⟩, ⟨1, 3⟩, ⟨1, 4⟩, ⟨2, 4⟩], LEFT, 4⟩ ∧
      (⟨[⟨1, 2⟩, ⟨1, 3⟩, ⟨1, 4⟩, ⟨2, 4⟩], LEFT, 4⟩ : snake).neck = some ⟨1, 4⟩ ∧
      advance LEFT ⟨2, 4⟩ = ⟨1, 4⟩ ∧
      (⟨[⟨1, 2⟩, ⟨1, 3⟩, ⟨1, 4⟩, ⟨2, 4⟩], LEFT, 4⟩ : snake).move =
        .ret (some "Died", ⟨[⟨1, 2⟩, ⟨1, 3⟩, ⟨1, 4⟩, ⟨2, 4⟩], LEFT, 4⟩)) := by
  decide

/-- C7, amended: right after a successful `move` of any snake, a single
`changeDirection(d)`, for any `d`, leaves the candidate head cell of the next
`move` different from the neck (the second-to-last body element). -/
theorem no_reverse_after_move (s s1 : snake) (hm : s.move = .ret (none, s1)) (d : direction)
    (h1 n : coord) (hh : (s1.changeDirection d).head = some h1)
    (hn : (s1.changeDirection d).neck = some n) :
    advance (s1.changeDirection d).direction h1 ≠ n := by
  obtain ⟨h, hhead, hfree, hh1, hdir, _, hb⟩ := move_ret_none s s1 hm
  have hmem : h ∈ s.body := List.mem_of_mem_getLast? hhead
  have hne : advance s.direction h ≠ h := fun e => hfree (by rw [e]; exact hmem)
  simp only [snake.head, snake.neck, changeDirection_body] at hh hn
  have e1 : h1 = advance s.direction h := by
    simp only [snake.head] at hh1
    rw [hh] at hh1
    exact Option.some.inj hh1
  have e2 : n = h := by
    simp only [snake.head] at hhead
    rcases hb with ⟨_, hb⟩ | ⟨_, hb⟩
    · rw [hb, List.dropLast_concat, hhead] at hn
      exact (Option.some.inj hn).symm
    · rw [hb, List.dropLast_concat, List.getLast?_drop] at hn
      split at hn
      · cases hn
      · rw [hhead] at hn
        exact (Option.some.inj hn).symm
  subst e1 e2
  apply advance_twice_ne s.direction _ n hne
  rcases changeDirection_direction s1 d with hc | ⟨hc, h0, h2⟩
  · exact Or.inl (hc.trans hdir)
  · rw [hc]
    exact Or.inr ⟨h0, hdir ▸ h2⟩

/-- Witness for C7: the initial snake after its first move, then
`changeDirection(DOWN)`; the candidate `(2,3)` is not the neck `(1,4)`. -/
theorem no_reverse_after_move_witness :
    initialSnake.move = .ret (none, ⟨[⟨1, 2⟩, ⟨1, 3⟩, ⟨1, 4⟩, ⟨2, 4⟩], RIGHT, 4⟩) ∧
    ((⟨[⟨1, 2⟩, ⟨1, 3⟩, ⟨1, 4⟩, ⟨2, 4⟩], RIGHT, 4⟩ : snake).changeDirection DOWN).head =
      some ⟨2, 4⟩ ∧
    ((⟨[⟨1, 2⟩, ⟨1, 3⟩, ⟨1, 4⟩, ⟨2, 4⟩], RIGHT, 4⟩ : snake).changeDirection DOWN).neck =
      some ⟨1, 4⟩ ∧
    advance ((⟨[⟨1, 2⟩, ⟨1, 3⟩, ⟨1, 4⟩, ⟨2, 4⟩], RIGHT, 4⟩ : snake).changeDirection
      DOWN).direction ⟨2, 4⟩ ≠ ⟨1, 4⟩ :=
  ⟨by decide, by decide, by decide,
   no_reverse_after_move initialSnake ⟨[⟨1, 2⟩, ⟨1, 3⟩, ⟨1, 4⟩, ⟨2, 4⟩], RIGHT, 4⟩
     (by decide) DOWN ⟨2, 4⟩ ⟨1, 4⟩ (by decide) (by decide)⟩

/-- C8: for every snake reachable from `newSnake` by moves, direction changes
and target-length increments, the body length is at most the target length,
and after a successful `move` the body length is
`min (previous body length + 1) (target length)`: the same as before when it
had reached the target length, one more when the target length was larger;
so it is again at most the target length. -/
theorem move_body_length_min (s : snake) (hr : SnakeReach s) :
    (s.body.length : Int) ≤ s.length ∧
    ∀ s', s.move = .ret (none, s') →
      (s'.body.length : Int) = min ((s.body.length : Int) + 1) s.length ∧
      ((s.body.length : Int) = s.length → s'.body.length = s.body.length) ∧
      ((s.body.length : Int) < s.length → s'.body.length = s.body.length + 1) ∧
      s'.length = s.length ∧
      (s'.body.length : Int) ≤ s'.length := by
  have hle := SnakeReach_body_le s hr
  refine ⟨hle, ?_⟩
  intro s' hm
  obtain ⟨hlen, hg, hs⟩ := move_body_length s s' hm
  by_cases hc : s.length > s.body.length
  · have h1 := hg hc
    refine ⟨?_, ?_, fun _ => h1, hlen, ?_⟩
    · rw [h1, min_def]; push_cast; split <;> omega
    · intro he; omega
    · rw [h1, hlen]; push_cast; omega
  · have h1 := hs hc
    refine ⟨?_, fun _ => h1, ?_, hlen, ?_⟩
    · rw [h1, min_def]; split <;> omega
    · intro hlt; omega
    · rw [h1, hlen]; exact hle

/-- Witness for C8: the initial snake, in steady state (4 segments stay 4);
the same snake with its target length raised once is reachable as well. -/
theorem move_body_length_min_witness :
    SnakeReach initialSnake ∧
    SnakeReach { initialSnake with length := wrapInt (initialSnake.length + 1) } ∧
    initialSnake.move = .ret (none, ⟨[⟨1, 2⟩, ⟨1, 3⟩, ⟨1, 4⟩, ⟨2, 4⟩], RIGHT, 4⟩) ∧
    ((⟨[⟨1, 2⟩, ⟨1, 3⟩, ⟨1, 4⟩, ⟨2, 4⟩], RIGHT, 4⟩ : snake).body.length : Int) =
      min ((initialSnake.body.length : Int) + 1) initialSnake.length :=
  ⟨SnakeReach.init RIGHT _,
   SnakeReach.grow initialSnake (SnakeReach.init RIGHT _) (by decide),
   by decide,
   ((move_body_length_min initialSnake (SnakeReach.init RIGHT _)).2 _
      (show initialSnake.move =
        .ret (none, ⟨[⟨1, 2⟩, ⟨1, 3⟩, ⟨1, 4⟩, ⟨2, 4⟩], RIGHT, 4⟩) by decide)).1⟩

/-- C9 as stated fails: at score 1010 `moveInterval` returns minus one
millisecond, which is negative and is not `max (100 - floor (1010 / 10)) 0`
milliseconds, that is 0. -/
theorem moveInterval_negative_at_1010 :
    (gameWith 1010 false).moveInterval = -1 * Millisecond ∧
    (gameWith 1010 false).moveInterval < 0 ∧
    (gameWith 1010 false).moveInterval ≠
      max (100 - (gameWith 1010 false).score / 10) 0 * Millisecond := by
  decide

/-- C9, amended: for every score from 0 up to 92233720369549 (beyond which the
nanosecond count leaves `int64`), `moveInterval` returns exactly
`100 - floor (score / 10)` milliseconds, with no clamp at 0.  Up to score 1009
this is `max (100 - floor (score / 10)) 0` milliseconds and not negative (zero
exactly from score 1000 on); from score 1010 on it is negative. -/
theorem moveInterval_formula (g : Game) (h0 : 0 ≤ g.score) (h1 : g.score ≤ 92233720369549) :
    g.moveInterval = (100 - g.score / 10) * Millisecond ∧
    (g.score ≤ 1009 →
      g.moveInterval = max (100 - g.score / 10) 0 * Millisecond ∧ 0 ≤ g.moveInterval ∧
      (g.moveInterval = 0 ↔ 1000 ≤ g.score)) ∧
    (1010 ≤ g.score → g.moveInterval < 0) := by
  have hf : g.moveInterval = (100 - g.score / 10) * Millisecond := by
    unfold Game.moveInterval
    simp only [Int.tdiv_eq_ediv h0 (show (0 : Int) ≤ 10 by decide), wrapInt, Millisecond]
    omega
  refine ⟨hf, ?_, ?_⟩
  · intro h2
    rw [hf]
    have hq : 0 ≤ 100 - g.score / 10 := by omega
    refine ⟨by rw [max_eq_left hq], ?_, ?_⟩
    · unfold Millisecond; omega
    · unfold Millisecond; omega
  · intro h2
    rw [hf]
    unfold Millisecond
    omega

/-- Witness for C9: score 250 gives 75 milliseconds. -/
theorem moveInterval_formula_witness :
    (0 : Int) ≤ (gameWith 250 false).score ∧
    (gameWith 250 false).score ≤ 92233720369549 ∧
    (gameWith 250 false).moveInterval = (100 - (gameWith 250 false).score / 10) * Millisecond ∧
    (gameWith 250 false).moveInterval = 75 * Millisecond :=
  ⟨by decide, by decide,
   (moveInterval_formula (gameWith 250 false) (by decide) (by decide)).1, by decide⟩

/-- C10: for every game state and every random source that at some point draws
a cell off the initial snake, `retry` returns; and whenever it returns, the
score is 0, the over flag is false, and the arena is a fresh one of height 20
and width 50 whose snake has body `[(1,1),(1,2),(1,3),(1,4)]`, direction RIGHT
and target length 4, with its food off the snake and inside the grid.  The
result does not depend on the previous game state, and `retry` never
panics. -/
theorem retry_resets (env : Env) (g : Game) (pos : Nat)
    (hfree : ∃ k, initialSnake.isOnPosition
      (sampleCell env ⟨none, initialSnake, 20, 50⟩ pos k) = false) :
    (∃ (fuel : Nat) (g' : Game) (pos' : Nat), g.retry env fuel pos = .ret (g', pos')) ∧
    (∀ (fuel : Nat) (g' : Game) (pos' : Nat), g.retry env fuel pos = .ret (g', pos') →
      g'.score = 0 ∧ g'.isOver = false ∧
      g'.arena.height = 20 ∧ g'.arena.width = 50 ∧
      g'.arena.snake = ⟨[⟨1, 1⟩, ⟨1, 2⟩, ⟨1, 3⟩, ⟨1, 4⟩], RIGHT, 4⟩ ∧
      ∃ f, g'.arena.food = some f ∧ f.points = 10 ∧
        ⟨f.x, f.y⟩ ∉ g'.arena.snake.body ∧
        0 ≤ f.x ∧ f.x < 50 ∧ 0 ≤ f.y ∧ f.y < 20) ∧
    (∀ (fuel : Nat) (g2 : Game), g.retry env fuel pos = g2.retry env fuel pos) ∧
    (∀ (fuel : Nat), g.retry env fuel pos ≠ .panicked) := by
  refine ⟨?_, ?_, fun _ _ => rfl, ?_⟩
  · obtain ⟨e, q, hp⟩ := placeFood_first_free env ⟨none, initialSnake, 20, 50⟩
      (by decide) (by decide) (Nat.find hfree) pos (Nat.find hfree + 1) (Nat.lt_succ_self _)
      (fun j hj => by
        have := Nat.find_min hfree hj
        simpa [arena.isOccupied] using this)
      (Nat.find_spec hfree)
    refine ⟨Nat.find hfree + 1, ?_⟩
    unfold Game.retry initialArena newArena
    simp only [hp, Run.ret_bind, Run.pure_eq_ret]
    exact ⟨_, _, rfl⟩
  · intro fuel g' pos' hr
    unfold Game.retry initialArena newArena at hr
    obtain ⟨⟨a, p⟩, hp, hr⟩ := Run.bind_eq_ret hr
    simp only [Run.pure_eq_ret, Run.ret.injEq, Prod.mk.injEq] at hr
    obtain ⟨f, ha, hpts, hoff, hx0, hx1, hy0, hy1⟩ := placeFood_ret env fuel _ pos a p hp
    obtain ⟨hg, _⟩ := hr
    subst hg ha
    exact ⟨rfl, rfl, rfl, rfl, rfl, f, rfl, hpts,
      (isOnPosition_eq_false_iff _ _).mp hoff, hx0, hx1, hy0, hy1⟩
  · intro fuel hp
    unfold Game.retry initialArena newArena arena.placeFood at hp
    cases hl : arena.placeFoodLoop env ⟨none, initialSnake, 20, 50⟩ fuel pos with
    | ret v =>
      obtain ⟨e, q, hnf⟩ := newFood_ret env v.2 v.1.x v.1.y
      simp [hl, hnf, Run.ret_bind, Run.pure_eq_ret] at hp
    | diverged => simp [hl, bind, Run.bind] at hp
    | panicked =>
      exact placeFoodLoop_ne_panicked env _ (by decide) (by decide) fuel pos hl

/-- Witness for C10: a game that is over with score 730, and a random source
that draws the free cell `(7,7)`. -/
theorem retry_resets_witness :
    (∃ k, initialSnake.isOnPosition
      (sampleCell sevenEnv ⟨none, initialSnake, 20, 50⟩ 0 k) = false) ∧
    (∃ (fuel : Nat) (g' : Game) (pos' : Nat),
      (gameWith 730 true).retry sevenEnv fuel 0 = .ret (g', pos')) ∧
    (gameWith 730 true).retry sevenEnv 1 0 = .ret (gameWith 0 false, 2) :=
  ⟨⟨0, by decide⟩, (retry_resets sevenEnv (gameWith 730 true) 0 ⟨0, by decide⟩).1, by decide⟩

/-- C11: the tick of the main loop.  While the game is not over, the tick runs
`moveSnake` once: it returns exactly when `moveSnake` returns, with the arena
`moveSnake` left, the score as it was, and the over flag set exactly when
`moveSnake` returned an error.  When the game is over, the tick returns the
game as it is: arena (snake and food), score and over flag.  So from a game
that is over, any run of the loop without a retry event keeps the over flag
and never changes body, target length or food. -/
theorem tick_moves_unless_over (keys : ArrowKeys) (env : Env) (fuel : Nat) (g : Game)
    (pos : Nat) :
    (g.isOver = false →
      (∀ r, g.arena.moveSnake env fuel pos = .ret r →
        g.tick env fuel pos =
          .ret ({ arena := r.arena, score := g.score, isOver := decide (r.err ≠ none) },
            r.sent, r.pos)) ∧
      (∀ g' sent pos', g.tick env fuel pos = .ret (g', sent, pos') →
        ∃ r, g.arena.moveSnake env fuel pos = .ret r ∧ g'.arena = r.arena ∧
          g'.score = g.score ∧ sent = r.sent ∧ (g'.isOver = true ↔ r.err ≠ none)) ∧
      (g.arena.moveSnake env fuel pos = .panicked → g.tick env fuel pos = .panicked) ∧
      (g.arena.moveSnake env fuel pos = .diverged → g.tick env fuel pos = .diverged)) ∧
    (g.isOver = true → g.tick env fuel pos = .ret (g, [], pos)) ∧
    (g.isOver = true → ∀ (pend : List Int) (st' : LoopState),
      NoRetryRun keys ⟨g, pend⟩ st' →
        st'.game.isOver = true ∧
        st'.game.arena.snake.body = g.arena.snake.body ∧
        st'.game.arena.snake.length = g.arena.snake.length ∧
        st'.game.arena.food = g.arena.food) := by
  refine ⟨?_, tick_of_over env fuel g pos, ?_⟩
  · intro hplay
    rw [tick_of_playing env fuel g pos hplay]
    refine ⟨?_, ?_, ?_, ?_⟩
    · intro r hr
      rw [hr, Run.ret_bind]
    · intro g' sent pos' ht
      obtain ⟨r, hr, ht⟩ := Run.bind_eq_ret ht
      cases ht
      exact ⟨r, hr, rfl, rfl, rfl, by simp⟩
    · intro hp; rw [hp]; rfl
    · intro hd; rw [hd]; rfl
  · intro hover pend st' hrun
    suffices H : ∀ st st', NoRetryRun keys st st' → st.game.isOver = true →
        st'.game.isOver = true ∧
        st'.game.arena.snake.body = st.game.arena.snake.body ∧
        st'.game.arena.snake.length = st.game.arena.snake.length ∧
        st'.game.arena.food = st.game.arena.food from H _ _ hrun hover
    intro st st' hrun
    induction hrun with
    | refl => intro ho; exact ⟨ho, rfl, rfl, rfl⟩
    | step st' st'' ev _ hstep hnr ih =>
      intro ho
      obtain ⟨ho', hb, hl, hf⟩ := ih ho
      obtain ⟨ho'', hb', hl', hf', _, _⟩ := LoopStep_over keys st' st'' ev hstep hnr ho'
      exact ⟨ho'', hb'.trans hb, hl'.trans hl, hf'.trans hf⟩

/-- Witness for C11: the new game ticks once and stays in play; the game at the
right edge with the over flag set does not move. -/
theorem tick_moves_unless_over_witness :
    (gameWith 0 false).isOver = false ∧
    (gameWith 0 false).tick sevenEnv 1 0 =
      .ret ({ arena := ⟨some ⟨64, 10, 7, 7⟩,
                ⟨[⟨1, 2⟩, ⟨1, 3⟩, ⟨1, 4⟩, ⟨2, 4⟩], RIGHT, 4⟩, 20, 50⟩,
              score := 0, isOver := false }, [], 0) ∧
    (gameWith 30 true).isOver = true ∧
    (gameWith 30 true).tick sevenEnv 1 0 = .ret (gameWith 30 true, [], 0) :=
  ⟨rfl,
   ((tick_moves_unless_over termboxKeys sevenEnv 1 (gameWith 0 false) 0).1 rfl).1
     { err := none,
       arena := ⟨some ⟨64, 10, 7, 7⟩, ⟨[⟨1, 2⟩, ⟨1, 3⟩, ⟨1, 4⟩, ⟨2, 4⟩], RIGHT, 4⟩, 20, 50⟩,
       sent := [], pos := 0 }
     (by decide),
   rfl,
   (tick_moves_unless_over termboxKeys sevenEnv 1 (gameWith 30 true) 0).2.1 rfl⟩

/-- C12: in the step relation of the main loop (tick, keyboard event, score
delta received from the points channel), starting from `NewGame`, the score is
not negative in every reachable state, every delta that is applied was handed
over by `moveSnake` and is the food's worth 10, and no step other than a retry
lowers the score: it stays, or grows by exactly 10 when a delta is applied; a
retry sets it to 0.  The statement covers the first 922337203685477580
iterations, within which the score cannot leave the 64-bit `int`. -/
theorem score_never_decreases (keys : ArrowKeys) (n : Nat) (st : LoopState)
    (hr : LoopReach keys n st) (hn : n < 922337203685477580) :
    0 ≤ st.game.score ∧
    (∀ p ∈ st.pending, p = 10) ∧
    ∀ (ev : LoopEvent) (st' : LoopState), LoopStep keys st ev st' →
      0 ≤ st'.game.score ∧
      (ev.isRetry = false → st.game.score ≤ st'.game.score) ∧
      (ev.isRetry = true → st'.game.score = 0) ∧
      (∀ p, ev = .points p → p = 10 ∧ st'.game.score = st.game.score + 10) ∧
      (ev = .tick → st'.game.score = st.game.score) := by
  have hn0 : 10 * (n : Int) ≤ maxInt := by unfold maxInt; omega
  obtain ⟨h0, h1, hpend, hfood⟩ := LoopReach_score keys n st hr hn0
  refine ⟨h0, hpend, ?_⟩
  intro ev st' hstep
  have hroom : st.game.score + 10 ≤ maxInt := by unfold maxInt; omega
  obtain ⟨_, _, hretry, hother, hpts⟩ :=
    LoopStep_score keys st st' ev hstep h0 hroom hpend hfood
  refine ⟨?_, ?_, hretry, hpts, ?_⟩
  · cases hev : ev.isRetry with
    | true => rw [hretry hev]
    | false => rcases hother hev with h | h <;> omega
  · intro hev
    rcases hother hev with h | h <;> omega
  · intro hev
    subst hev
    cases hstep with
    | tick env fuel pos g pend g' sent pos' ht =>
      by_cases ho : g.isOver = true
      · rw [tick_of_over env fuel g pos ho] at ht
        cases ht
        rfl
      · simp only [Bool.not_eq_true] at ho
        rw [tick_of_playing env fuel g pos ho] at ht
        obtain ⟨r, _, ht⟩ := Run.bind_eq_ret ht
        cases ht
        rfl

/-- Witness for C12: the state after the short play, twelve iterations into
the game, with score 10. -/
theorem score_never_decreases_witness :
    LoopReach termboxKeys 12 shortPlayEnd ∧ 12 < 922337203685477580 ∧
    (0 : Int) ≤ shortPlayEnd.game.score ∧ shortPlayEnd.game.score = 10 :=
  ⟨LoopReach_shortPlayEnd, by decide,
   (score_never_decreases termboxKeys 12 shortPlayEnd LoopReach_shortPlayEnd (by decide)).1,
   rfl⟩

/-- C13 as stated fails: for the scores `0 ≤ 92233720369550` the interval at the
larger score is the larger one.  At score 92233720369550 the interval is
`-9223372036855` milliseconds, whose nanosecond count lies below the least
`int64` and wraps to `9223372036854551616`; at score 0 it is 100 milliseconds,
`100000000` nanoseconds. -/
theorem moveInterval_grows_past_int64 :
    (gameWith 0 false).score ≤ (gameWith 92233720369550 false).score ∧
    (gameWith 0 false).moveInterval = 100000000 ∧
    (gameWith 92233720369550 false).moveInterval = 9223372036854551616 ∧
    ¬ (gameWith 92233720369550 false).moveInterval ≤ (gameWith 0 false).moveInterval := by
  decide

/-- C13, amended: `moveInterval` does not grow with the score as long as the
scores lie in `[-92233720367549, 92233720369549]`, the range in which the
nanosecond count of the interval fits into `int64`: for scores `s1 ≤ s2` in
that range, the interval at `s2` is at most the interval at `s1`. -/
theorem moveInterval_antitone (g1 g2 : Game) (hle : g1.score ≤ g2.score)
    (hlo : -92233720367549 ≤ g1.score) (hhi : g2.score ≤ 92233720369549) :
    g2.moveInterval ≤ g1.moveInterval := by
  have hlo2 : -92233720367549 ≤ g2.score := le_trans hlo hle
  have hhi1 : g1.score ≤ 92233720369549 := le_trans hle hhi
  obtain ⟨e1, _, _⟩ := moveInterval_in_range g1 hlo hhi1
  obtain ⟨e2, _, _⟩ := moveInterval_in_range g2 hlo2 hhi
  rw [e1, e2, tdiv_ten, tdiv_ten]
  split <;> split <;> omega

/-- Witness for C13: scores 30 and 250 give 97 and 75 milliseconds. -/
theorem moveInterval_antitone_witness :
    (gameWith 30 false).score ≤ (gameWith 250 true).score ∧
    -92233720367549 ≤ (gameWith 30 false).score ∧
    (gameWith 250 true).score ≤ 92233720369549 ∧
    (gameWith 250 true).moveInterval ≤ (gameWith 30 false).moveInterval ∧
    (gameWith 250 true).moveInterval = 75 * Millisecond ∧
    (gameWith 30 false).moveInterval = 97 * Millisecond :=
  ⟨by decide, by decide, by decide,
   moveInterval_antitone (gameWith 30 false) (gameWith 250 true) (by decide) (by decide)
     (by decide), by decide, by decide⟩

/-- C14, the code at the failing inputs: ten more points shorten the interval
by one millisecond, not by ten: score 0 gives 100 ms and score 10 gives 99 ms;
score 250 gives 75 ms and score 260 gives 74 ms. -/
theorem moveInterval_step_is_one_ms :
    (gameWith 0 false).moveInterval = 100 * Millisecond ∧
    (gameWith 10 false).moveInterval = 99 * Millisecond ∧
    (gameWith 10 false).moveInterval = (gameWith 0 false).moveInterval - 1 * Millisecond ∧
    (gameWith 10 false).moveInterval ≠ (gameWith 0 false).moveInterval - 10 * Millisecond ∧
    (gameWith 250 false).moveInterval = 75 * Millisecond ∧
    (gameWith 260 false).moveInterval = 74 * Millisecond ∧
    (gameWith 260 false).moveInterval ≠ (gameWith 250 false).moveInterval - 10 * Millisecond := by
  decide

/-- C15: `keyToDirection` gives RIGHT, LEFT, UP and DOWN for the right, left,
up and down arrow keys and 0 for every other key; `changeDirection` with 0, or
with any value outside the four directions, returns the snake as it is
(direction, body and target length); so a MOVE event with a key other than the
four arrows never changes the snake. -/
theorem non_arrow_key_ignored (keys : ArrowKeys) :
    keyToDirection keys keys.KeyArrowRight = RIGHT ∧
    keyToDirection keys keys.KeyArrowLeft = LEFT ∧
    keyToDirection keys keys.KeyArrowUp = UP ∧
    keyToDirection keys keys.KeyArrowDown = DOWN ∧
    (∀ k, k ≠ keys.KeyArrowRight → k ≠ keys.KeyArrowLeft → k ≠ keys.KeyArrowUp →
      k ≠ keys.KeyArrowDown → keyToDirection keys k = 0) ∧
    (∀ (s : snake), s.changeDirection 0 = s) ∧
    (∀ (s : snake) (d : direction), d ≠ RIGHT → d ≠ LEFT → d ≠ UP → d ≠ DOWN →
      s.changeDirection d = s ∧
      (s.changeDirection d).direction = s.direction ∧
      (s.changeDirection d).body = s.body ∧
      (s.changeDirection d).length = s.length) ∧
    (∀ (s : snake) (k : Nat), k ≠ keys.KeyArrowRight → k ≠ keys.KeyArrowLeft →
      k ≠ keys.KeyArrowUp → k ≠ keys.KeyArrowDown →
      s.changeDirection (keyToDirection keys k) = s) := by
  have hd := keys.distinct
  simp only [List.nodup_cons, List.mem_cons, List.mem_singleton, List.not_mem_nil,
    not_or, or_false, List.nodup_nil, and_true, not_false_eq_true] at hd
  obtain ⟨⟨hLD, hLR, hLU⟩, ⟨hDR, hDU⟩, hRU⟩ := hd
  have hother : ∀ k, k ≠ keys.KeyArrowRight → k ≠ keys.KeyArrowLeft → k ≠ keys.KeyArrowUp →
      k ≠ keys.KeyArrowDown → keyToDirection keys k = 0 := by
    intro k h1 h2 h3 h4
    unfold keyToDirection
    simp [h1, h2, h3, h4]
  have hzero : ∀ (s : snake), s.changeDirection 0 = s := fun s =>
    changeDirection_of_not_direction s 0 (by decide) (by decide) (by decide) (by decide)
  refine ⟨?_, ?_, ?_, ?_, hother, hzero, ?_, ?_⟩
  · unfold keyToDirection
    simp [Ne.symm hLR, Ne.symm hDR]
  · unfold keyToDirection
    simp
  · unfold keyToDirection
    simp [Ne.symm hLU, Ne.symm hDU, Ne.symm hRU]
  · unfold keyToDirection
    simp [Ne.symm hLD]
  · intro s d h1 h2 h3 h4
    have h := changeDirection_of_not_direction s d h1 h2 h3 h4
    exact ⟨h, by rw [h], by rw [h], by rw [h]⟩
  · intro s k h1 h2 h3 h4
    rw [hother k h1 h2 h3 h4]
    exact hzero s

/-- C16: for a snake with head `h` whose candidate cell is free, `move`
succeeds; the new head is the candidate cell, that is `h` advanced one step in
the current direction, which is one of the four (RIGHT: `x + 1`, LEFT:
`x - 1`, UP: `y + 1`, DOWN: `y - 1`, for coordinates that stay inside the
64-bit `int`); the segments before it are the old body in the same order, all
of it while the body is shorter than the target length and without its first
element otherwise; direction and target length stay the same. -/
theorem move_advances_head (s : snake) (h : coord) (hh : s.head = some h)
    (hfree : advance s.direction h ∉ s.body) :
    ∃ s', s.move = .ret (none, s') ∧
      s'.head = some (advance s.direction h) ∧
      s'.body = (if (s.body.length : Int) < s.length then s.body else s.body.drop 1) ++
        [advance s.direction h] ∧
      s'.direction = s.direction ∧ s'.length = s.length ∧
      (s.direction = RIGHT ∨ s.direction = LEFT ∨ s.direction = UP ∨ s.direction = DOWN) ∧
      (s.direction = RIGHT → -maxInt - 1 ≤ h.x → h.x < maxInt →
        advance s.direction h = ⟨h.x + 1, h.y⟩) ∧
      (s.direction = LEFT → -maxInt ≤ h.x → h.x ≤ maxInt →
        advance s.direction h = ⟨h.x - 1, h.y⟩) ∧
      (s.direction = UP → -maxInt - 1 ≤ h.y → h.y < maxInt →
        advance s.direction h = ⟨h.x, h.y + 1⟩) ∧
      (s.direction = DOWN → -maxInt ≤ h.y → h.y ≤ maxInt →
        advance s.direction h = ⟨h.x, h.y - 1⟩) := by
  have hmem : h ∈ s.body := List.mem_of_mem_getLast? hh
  have hne : advance s.direction h ≠ h := fun e => hfree (by rw [e]; exact hmem)
  have hm := move_eq_of_head s h hh
  simp only [hfree, if_false] at hm
  have hdir : s.direction = RIGHT ∨ s.direction = LEFT ∨ s.direction = UP ∨
      s.direction = DOWN := by
    by_contra hc
    simp only [not_or] at hc
    apply hne
    unfold advance
    simp [hc.1, hc.2.1, hc.2.2.1, hc.2.2.2]
  have hstep : ∀ v : Int, -maxInt - 1 ≤ v → v ≤ maxInt → wrapInt v = v := by
    intro v h1 h2
    unfold maxInt at h1 h2
    unfold wrapInt
    omega
  refine ⟨{ s with body := (if (s.body.length : Int) < s.length then s.body
      else s.body.drop 1) ++ [advance s.direction h] }, ?_, ?_, rfl, rfl, rfl, hdir,
    ?_, ?_, ?_, ?_⟩
  · rw [hm]
    by_cases hl : s.length > s.body.length
    · have hl' : (s.body.length : Int) < s.length := hl
      rw [if_pos hl, if_pos hl']
    · have hl' : ¬ (s.body.length : Int) < s.length := hl
      rw [if_neg hl, if_neg hl']
  · simp [snake.head]
  · intro hd h1 h2
    rw [hd]
    simp only [advance, if_true]
    rw [hstep (h.x + 1) (by omega) (by omega)]
  · intro hd h1 h2
    rw [hd]
    simp only [advance, LEFT, RIGHT, if_true]
    rw [if_neg (by decide), hstep (h.x - 1) (by omega) (by omega)]
  · intro hd h1 h2
    rw [hd]
    simp only [advance, LEFT, RIGHT, UP, if_true]
    rw [if_neg (by decide), if_neg (by decide), hstep (h.y + 1) (by omega) (by omega)]
  · intro hd h1 h2
    rw [hd]
    simp only [advance, LEFT, RIGHT, UP, DOWN, if_true]
    rw [if_neg (by decide), if_neg (by decide), if_neg (by decide),
      hstep (h.y - 1) (by omega) (by omega)]

/-- Witness for C16: the initial snake; its head `(1,4)` moves RIGHT to
`(2,4)`. -/
theorem move_advances_head_witness :
    initialSnake.head = some ⟨1, 4⟩ ∧
    advance initialSnake.direction ⟨1, 4⟩ ∉ initialSnake.body ∧
    ∃ s', initialSnake.move = .ret (none, s') ∧ s'.head = some ⟨2, 4⟩ ∧
      s'.body = [⟨1, 2⟩, ⟨1, 3⟩, ⟨1, 4⟩, ⟨2, 4⟩] :=
  ⟨by decide, by decide,
   (move_advances_head initialSnake ⟨1, 4⟩ (by decide) (by decide)).imp
     (fun _ hs => ⟨hs.1, hs.2.1, hs.2.2.1⟩)⟩

/-- C17: in every state reachable from the initial snake by `move` calls
(whether they succeed or die), direction changes and target-length
increments, the body has at least one segment; so `head` is defined (its
index is in range) and `move` does not panic. -/
theorem body_never_empty (s : snake) (hr : SnakeReachFrom initialSnake s) :
    s.body ≠ [] ∧ 1 ≤ s.body.length ∧
    (∃ h, s.head = some h ∧ s.body.get? (s.body.length - 1) = some h) ∧
    (∃ e s', s.move = .ret (e, s')) := by
  have hne : s.body ≠ [] :=
    SnakeReachFrom_body_ne_nil initialSnake s (by decide) hr
  have hhead := head_of_ne_nil s hne
  refine ⟨hne, List.length_pos.mpr hne, ⟨_, hhead, ?_⟩, ?_⟩
  · rw [List.getLast_eq_getElem, List.get?_eq_getElem?]
    exact List.getElem?_eq_getElem _
  · rw [move_eq_of_head s _ hhead]
    split
    · exact ⟨_, _, rfl⟩
    · split
      · exact ⟨_, _, rfl⟩
      · exact ⟨_, _, rfl⟩

/-- Witness for C17: the initial snake after one move, a turn and a
target-length increment. -/
theorem body_never_empty_witness :
    SnakeReachFrom initialSnake ⟨[⟨1, 2⟩, ⟨1, 3⟩, ⟨1, 4⟩, ⟨2, 4⟩], UP, 5⟩ ∧
    (⟨[⟨1, 2⟩, ⟨1, 3⟩, ⟨1, 4⟩, ⟨2, 4⟩], UP, 5⟩ : snake).body ≠ [] :=
  (fun hr => ⟨hr, (body_never_empty _ hr).1⟩)
    (SnakeReachFrom.grow _
      (SnakeReachFrom.turn ⟨[⟨1, 2⟩, ⟨1, 3⟩, ⟨1, 4⟩, ⟨2, 4⟩], RIGHT, 4⟩ UP
        (SnakeReachFrom.move initialSnake none _ SnakeReachFrom.init (by decide))))

/-- C18: take the random source as the stream of the cells it samples, all of
them inside `[0,width) x [0,height)`.  If some sampled cell is free of the
snake, there is a first such cell, and `placeFood` returns with any fuel above
its index: the loop has skipped exactly the occupied samples before it, two
draws each, and the food is placed on it.  If no snake segment lies inside the
grid, the loop ends after a single sample.  If every sampled cell is
occupied, `placeFood` does not return, whatever the fuel. -/
theorem placeFood_first_free_sample (env : Env) (a : arena) (pos : Nat)
    (hw : 0 < a.width) (hh : 0 < a.height) :
    (∀ k, 0 ≤ (sampleCell env a pos k).x ∧ (sampleCell env a pos k).x < a.width ∧
      0 ≤ (sampleCell env a pos k).y ∧ (sampleCell env a pos k).y < a.height) ∧
    (∀ k, a.isOccupied (sampleCell env a pos k) = false →
      ∃ k0, k0 ≤ k ∧
        (∀ j, j < k0 → a.isOccupied (sampleCell env a pos j) = true) ∧
        a.isOccupied (sampleCell env a pos k0) = false ∧
        ∀ fuel, k0 < fuel →
          a.placeFoodLoop env fuel pos = .ret (sampleCell env a pos k0, pos + 2 * (k0 + 1)) ∧
          ∃ e pos', a.placeFood env fuel pos =
            .ret ({ a with food := some ⟨e, 10, (sampleCell env a pos k0).x,
                      (sampleCell env a pos k0).y⟩ }, pos')) ∧
    ((∀ b ∈ a.snake.body, ¬ (0 ≤ b.x ∧ b.x < a.width ∧ 0 ≤ b.y ∧ b.y < a.height)) →
      ∀ fuel, 0 < fuel →
        a.placeFoodLoop env fuel pos = .ret (sampleCell env a pos 0, pos + 2) ∧
        ∃ e pos', a.placeFood env fuel pos =
          .ret ({ a with food := some ⟨e, 10, (sampleCell env a pos 0).x,
                    (sampleCell env a pos 0).y⟩ }, pos')) ∧
    ((∀ k, a.isOccupied (sampleCell env a pos k) = true) →
      ∀ fuel, a.placeFood env fuel pos = .diverged) := by
  have hgrid : ∀ k, 0 ≤ (sampleCell env a pos k).x ∧ (sampleCell env a pos k).x < a.width ∧
      0 ≤ (sampleCell env a pos k).y ∧ (sampleCell env a pos k).y < a.height := by
    intro k
    simp only [sampleCell]
    exact ⟨Int.emod_nonneg _ (by omega), Int.emod_lt_of_pos _ hw,
      Int.emod_nonneg _ (by omega), Int.emod_lt_of_pos _ hh⟩
  refine ⟨hgrid, ?_, ?_, ?_⟩
  · intro k hk
    have hex : ∃ k, a.isOccupied (sampleCell env a pos k) = false := ⟨k, hk⟩
    have hmin : ∀ j, j < Nat.find hex → a.isOccupied (sampleCell env a pos j) = true := by
      intro j hj
      have := Nat.find_min hex hj
      simpa using this
    refine ⟨Nat.find hex, Nat.find_min' hex hk, hmin, Nat.find_spec hex, ?_⟩
    intro fuel hf
    exact ⟨placeFoodLoop_first_free env a hw hh _ pos fuel hf hmin (Nat.find_spec hex),
      placeFood_first_free env a hw hh _ pos fuel hf hmin (Nat.find_spec hex)⟩
  · intro hout fuel hf
    have hfree : a.isOccupied (sampleCell env a pos 0) = false := by
      refine (isOnPosition_eq_false_iff _ _).mpr ?_
      intro hmem
      exact hout _ hmem (hgrid 0)
    have hnone : ∀ j, j < 0 → a.isOccupied (sampleCell env a pos j) = true :=
      fun j hj => absurd hj (Nat.not_lt_zero j)
    exact ⟨placeFoodLoop_first_free env a hw hh 0 pos fuel hf hnone hfree,
      placeFood_first_free env a hw hh 0 pos fuel hf hnone hfree⟩
  · intro hocc fuel
    unfold arena.placeFood
    rw [placeFoodLoop_diverges env a hw hh fuel pos hocc]
    rfl

/-- Witness for C18: the initial arena and a random source that samples
`(1,1)` and `(1,2)`, both on the snake, and then the free cell `(5,5)`: the
food lands on `(5,5)` after six draws. -/
theorem placeFood_first_free_sample_witness :
    (0 : Int) < (⟨none, initialSnake, 20, 50⟩ : arena).width ∧
    (0 : Int) < (⟨none, initialSnake, 20, 50⟩ : arena).height ∧
    (∀ k, 0 ≤ (sampleCell skipEnv ⟨none, initialSnake, 20, 50⟩ 0 k).x) ∧
    arena.placeFoodLoop skipEnv ⟨none, initialSnake, 20, 50⟩ 3 0 = .ret (⟨5, 5⟩, 6) ∧
    arena.placeFood skipEnv 3 ⟨none, initialSnake, 20, 50⟩ 0 =
      .ret (⟨some ⟨64, 10, 5, 5⟩, initialSnake, 20, 50⟩, 6) ∧
    arena.placeFoodLoop skipEnv ⟨none, initialSnake, 20, 50⟩ 2 0 = .diverged :=
  ⟨by decide, by decide,
   fun k => ((placeFood_first_free_sample skipEnv ⟨none, initialSnake, 20, 50⟩ 0
     (by decide) (by decide)).1 k).1,
   by decide, by decide, by decide⟩

/-- C19: the snake never overlaps itself.  If the body segments of a snake are
pairwise distinct cells, they are so after any `move` (whether it succeeds or
dies), after `changeDirection`, and after any returning `moveSnake`; the
initial snake has pairwise distinct segments; hence in every state reachable
from `NewGame` by the main loop no two body segments share a cell. -/
theorem body_never_overlaps (keys : ArrowKeys) :
    (∀ (s : snake), s.body.Nodup →
      (∀ e s', s.move = .ret (e, s') → s'.body.Nodup) ∧
      (∀ d, (s.changeDirection d).body.Nodup)) ∧
    (∀ (a : arena) (env : Env) (fuel pos : Nat) (r : MoveSnakeResult),
      a.snake.body.Nodup → a.moveSnake env fuel pos = .ret r → r.arena.snake.body.Nodup) ∧
    initialSnake.body.Nodup ∧
    (∀ (n : Nat) (st : LoopState), LoopReach keys n st →
      st.game.arena.snake.body.Nodup) := by
  refine ⟨?_, ?_, by decide, ?_⟩
  · intro s hn
    refine ⟨fun e s' hm => move_body_nodup s e s' hn hm, fun d => ?_⟩
    rw [changeDirection_body]
    exact hn
  · intro a env fuel pos r hn hr
    obtain ⟨e, s', hm, hb⟩ := moveSnake_body env fuel a pos r hr
    rw [hb]
    exact move_body_nodup _ e s' hn hm
  · intro n st hr
    induction hr with
    | init env fuel pos g pos' hnew =>
      obtain ⟨_, _, hsn, _⟩ := NewGame_ret env fuel pos g pos' hnew
      show g.arena.snake.body.Nodup
      rw [hsn]
      decide
    | step n st ev st' _ hstep ih => exact LoopStep_nodup keys st st' ev hstep ih

/-- Witness for C19: the state after the short play, and one more move of its
snake. -/
theorem body_never_overlaps_witness :
    LoopReach termboxKeys 12 shortPlayEnd ∧
    shortPlayEnd.game.arena.snake.body.Nodup ∧
    shortPlayEnd.game.arena.snake.move =
      .ret (none, ⟨[⟨7, 5⟩, ⟨7, 6⟩, ⟨7, 7⟩, ⟨7, 8⟩, ⟨7, 9⟩], UP, 5⟩) ∧
    (⟨[⟨7, 5⟩, ⟨7, 6⟩, ⟨7, 7⟩, ⟨7, 8⟩, ⟨7, 9⟩], UP, 5⟩ : snake).body.Nodup :=
  ⟨LoopReach_shortPlayEnd,
   (body_never_overlaps termboxKeys).2.2.2 12 shortPlayEnd LoopReach_shortPlayEnd,
   by decide,
   ((body_never_overlaps termboxKeys).1 shortPlayEnd.game.arena.snake (by decide)).1 none _
     (by decide)⟩

end SnakeGame
